import Mathlib

set_option maxRecDepth 10000

/-!
Verification of the neurobik downloader core (`src/neurobik`): a shallow
embedding of `utils.py`, `downloader.py`, `config.py` and the `download`
command of `cli.py`, together with theorems about the claims of the
specification.  Paths are modelled structurally (absolute flag plus the
list of `/`-separated components), the filesystem as explicit state, and
the external collaborators (subprocess exit statuses, HTTP bodies,
OS-level unlink/symlink outcomes) as an environment of oracles.
-/

namespace Neurobik

/-! ## Paths

A POSIX path string is modelled by whether it is absolute and its list of
nonempty components.  `os.path.dirname` drops the last component (for a
bare filename such as `"foo"` this yields the empty relative path, the
model of the empty string `""`); `os.path.join dir name` appends one
component. -/

structure PPath where
  abs : Bool
  comps : List String
deriving DecidableEq, Repr

/-- `os.path.dirname`: drop the final path component. -/
def dirname (p : PPath) : PPath :=
  ⟨p.abs, p.comps.dropLast⟩

/-- `os.path.join p name` for a single trailing component. -/
def joinName (p : PPath) (name : String) : PPath :=
  ⟨p.abs, p.comps ++ [name]⟩

/-- Render a path as the string handed to external tools on a command line. -/
def pathStr (p : PPath) : String :=
  (if p.abs then "/" else "") ++ String.intercalate "/" p.comps

/-- Python `str + str` on a path string: append to the final component
(`dest + ".confirmed"` in `download_file`). -/
def appendToLast (p : PPath) (suffix : String) : PPath :=
  match p.comps with
  | [] => ⟨p.abs, [suffix]⟩
  | _ => ⟨p.abs, p.comps.dropLast ++ [(p.comps.getLast?.getD "") ++ suffix]⟩

/-! ### `os.path.relpath`

For already-normalized absolute inputs, `posixpath.relpath(path, start)`
splits both into components, removes their longest common prefix and
produces one `".."` per remaining component of `start` followed by the
remaining components of `path`. -/

/-- Strip the longest common prefix of two component lists, returning the
two remainders `(path rest, start rest)`. -/
def dropCommon : List String → List String → List String × List String
  | a :: as_, b :: bs => if a = b then dropCommon as_ bs else (a :: as_, b :: bs)
  | as_, bs => (as_, bs)

/-- Core of `posixpath.relpath` on component lists. -/
def relComps (path start : List String) : List String :=
  let r := dropCommon path start
  r.2.map (fun _ => "..") ++ r.1

/-- `os.path.relpath(path, start)` for absolute normalized inputs; the
result is a relative path (Python renders the empty result as `"."`,
modelled by the empty component list). -/
def relpath (path start : PPath) : PPath :=
  ⟨false, relComps path.comps start.comps⟩

/-- Resolve a relative component list against an absolute directory, the
way a symlink target is resolved against the link's containing directory:
`".."` removes the last accumulated component, `"."` is skipped, anything
else is appended. -/
def resolveComps (dir : List String) : List String → List String
  | [] => dir
  | c :: rest =>
    if c = ".." then resolveComps dir.dropLast rest
    else if c = "." then resolveComps dir rest
    else resolveComps (dir ++ [c]) rest

/-! ## SHA-256 (`hashlib.sha256`)

The checksum routine of `utils.py` delegates to `hashlib.sha256`; the
algorithm is embedded here over `Nat` with explicit reduction mod `2^32`. -/

def w32 (x : Nat) : Nat := x % 4294967296

def add32 (a b : Nat) : Nat := (a + b) % 4294967296

/-- Rotate a 32-bit word right by `n`. -/
def rotr (n x : Nat) : Nat :=
  w32 ((x >>> n) ||| (x <<< (32 - n)))

/-- The 64 SHA-256 round constants. -/
def shaK : List Nat :=
  [1116352408, 1899447441, 3049323471, 3921009573, 961987163, 1508970993,
   2453635748, 2870763221, 3624381080, 310598401, 607225278, 1426881987,
   1925078388, 2162078206, 2614888103, 3248222580, 3835390401, 4022224774,
   264347078, 604807628, 770255983, 1249150122, 1555081692, 1996064986,
   2554220882, 2821834349, 2952996808, 3210313671, 3336571891, 3584528711,
   113926993, 338241895, 666307205, 773529912, 1294757372, 1396182291,
   1695183700, 1986661051, 2177026350, 2456956037, 2730485921, 2820302411,
   3259730800, 3345764771, 3516065817, 3600352804, 4094571909, 275423344,
   430227734, 506948616, 659060556, 883997877, 958139571, 1322822218,
   1537002063, 1747873779, 1955562222, 2024104815, 2227730452, 2361852424,
   2428436474, 2756734187, 3204031479, 3329325298]

/-- The initial SHA-256 hash state. -/
def shaH0 : List Nat :=
  [1779033703, 3144134277, 1013904242, 2773480762,
   1359893119, 2600822924, 528734635, 1541459225]

/-- Big-endian bytes of a value, fixed width `n` bytes. -/
def beBytes : Nat → Nat → List Nat
  | 0, _ => []
  | n + 1, v => beBytes n (v / 256) ++ [v % 256]

/-- SHA-256 message padding: `0x80`, zeros, then the bit length in 8
big-endian bytes, to a multiple of 64 bytes. -/
def shaPad (msg : List Nat) : List Nat :=
  let l := msg.length
  let padLen := (55 + 64 - l % 64) % 64 + 1
  msg ++ (128 :: List.replicate (padLen - 1) 0) ++ beBytes 8 (l * 8)

/-- Split a list into consecutive chunks of size `n` (the last chunk may
be shorter), as the `f.read(4096)` loop yields them; `fuel` bounds the
recursion and is instantiated with the list length. -/
def chunksGo (n : Nat) : Nat → List α → List (List α)
  | _, [] => []
  | 0, l => [l]
  | fuel + 1, x :: xs => (x :: xs).take n :: chunksGo n fuel ((x :: xs).drop n)

def chunks (n : Nat) (l : List α) : List (List α) :=
  chunksGo n l.length l

/-- Combine 4 big-endian bytes into one 32-bit word. -/
def beWord (bs : List Nat) : Nat :=
  bs.foldl (fun acc b => acc * 256 + b) 0

/-- Extend the 16-word schedule by `n` further words. -/
def extendSchedule : Nat → List Nat → List Nat
  | 0, w => w
  | n + 1, w =>
    let t := w.length
    let x15 := w.getD (t - 15) 0
    let x2 := w.getD (t - 2) 0
    let s0 := (rotr 7 x15) ^^^ (rotr 18 x15) ^^^ (x15 >>> 3)
    let s1 := (rotr 17 x2) ^^^ (rotr 19 x2) ^^^ (x2 >>> 10)
    extendSchedule n (w ++ [(w.getD (t - 16) 0 + s0 + w.getD (t - 7) 0 + s1) % 4294967296])

/-- One SHA-256 compression round on the 8-word working state. -/
def shaRound (st : List Nat) (k wi : Nat) : List Nat :=
  match st with
  | [a, b, c, d, e, f, g, h] =>
    let S1 := (rotr 6 e) ^^^ (rotr 11 e) ^^^ (rotr 25 e)
    let ch := (e &&& f) ^^^ ((4294967295 - e) &&& g)
    let temp1 := (h + S1 + ch + k + wi) % 4294967296
    let S0 := (rotr 2 a) ^^^ (rotr 13 a) ^^^ (rotr 22 a)
    let maj := (a &&& b) ^^^ (a &&& c) ^^^ (b &&& c)
    let temp2 := (S0 + maj) % 4294967296
    [add32 temp1 temp2, a, b, c, add32 d temp1, e, f, g]
  | st => st

/-- Compress one 64-byte block into the hash state. -/
def shaCompress (h : List Nat) (block : List Nat) : List Nat :=
  let w := extendSchedule 48 ((chunks 4 block).map beWord)
  let st := (shaK.zip w).foldl (fun st kw => shaRound st kw.1 kw.2) h
  (h.zip st).map (fun p => add32 p.1 p.2)

/-- SHA-256 digest of a byte string, as 8 32-bit words. -/
def sha256Words (msg : List Nat) : List Nat :=
  (chunks 64 (shaPad msg)).foldl shaCompress shaH0

/-- Lowercase hexadecimal digit characters. -/
def hexDigit (n : Nat) : Char :=
  "0123456789abcdef".toList.getD n '0'

/-- Lowercase hex rendering of one 32-bit word (8 digits). -/
def wordHex (x : Nat) : List Char :=
  (List.range 8).map (fun i => hexDigit (x / 16 ^ (7 - i) % 16))

/-- `hashlib.sha256(msg).hexdigest()`: the lowercase hex digest. -/
def sha256Hex (msg : List Nat) : String :=
  ⟨(sha256Words msg).foldr (fun x acc => wordHex x ++ acc) []⟩

/-! ## `utils.py` -/

/-- `verify_checksum(file_path, expected_checksum)` from `utils.py`:
reads the file (modelled by its byte content), feeds it in 4096-byte
chunks to an incremental SHA-256 (equivalent to hashing the whole
content, since `update` concatenates), and compares the lowercase hex
digest to the expected string with exact string equality. -/
def verify_checksum (content : List Nat) (expected_checksum : String) : Bool :=
  sha256Hex ((chunks 4096 content).foldl (fun acc c => acc ++ c) []) == expected_checksum

/-! ## Filesystem state, exceptions, events

The filesystem is the only persistent state: directories, regular files
(path and byte content) and symlinks (path and stored target).  Python
exceptions are modelled explicitly; note which of them the `download`
command's `except (ValueError, OSError, RuntimeError)` clause catches.
Each filesystem-visible action is also recorded as an event, so temporal
claims can speak about the order of effects. -/

inductive Exc where
  | valueError (msg : String)
  | osError (msg : String)
  | runtimeError (msg : String)
  | calledProcessError (argv : List String)
  | stopIteration
  | indexError
deriving DecidableEq, Repr

inductive Event where
  | evMakedirs (dir : PPath)
  | evRunCmd (argv : List String)
  | evWriteFile (path : PPath)
  | evTouch (path : PPath)
  | evUnlink (path : PPath)
  | evSymlink (target : PPath) (path : PPath)
deriving DecidableEq, Repr

structure FS where
  dirs : List PPath := []
  files : List (PPath × List Nat) := []
  links : List (PPath × PPath) := []
deriving DecidableEq, Repr

/-- `os.path.exists` on a regular-file path (confirmation files and
downloaded files are regular files in this model). -/
def FS.hasFile (fs : FS) (p : PPath) : Bool :=
  fs.files.any (fun f => f.1 == p)

/-- `os.path.lexists`: link-aware existence test that does not follow
symlinks, so a dangling symlink still counts as existing. -/
def FS.lexists (fs : FS) (p : PPath) : Bool :=
  fs.hasFile p || fs.links.any (fun l => l.1 == p) || fs.dirs.contains p

/-- Program state threaded through the embedding: the filesystem plus the
trace of effects performed so far. -/
structure St where
  fs : FS
  trace : List Event
deriving DecidableEq, Repr

/-- Sequencing that stops at the first raised exception while keeping the
state reached so far (Python exceptions do not roll effects back). -/
def andThen (r : St × Option Exc) (f : St → St × Option Exc) : St × Option Exc :=
  match r with
  | (s, none) => f s
  | (s, some e) => (s, some e)

/-- The ancestors of `d` (including `d` itself) that are not yet present
and that `os.makedirs` therefore creates. -/
def newDirs (fs : FS) (d : PPath) : List PPath :=
  ((d.comps.inits.filter (fun c => !c.isEmpty)).map (fun c => PPath.mk d.abs c)).filter
    (fun p => !fs.dirs.contains p)

/-- `os.makedirs(d, exist_ok=True)`: creates the directory and its
missing ancestors.  Called on the empty path (the `dirname` of a bare
filename) it raises `FileNotFoundError`, an `OSError`. -/
def makedirsSt (s : St) (d : PPath) : St × Option Exc :=
  if !d.abs && d.comps.isEmpty then
    (s, some (.osError "FileNotFoundError: No such file or directory"))
  else
    ({ fs := { s.fs with dirs := s.fs.dirs ++ newDirs s.fs d },
       trace := s.trace ++ [.evMakedirs d] }, none)

/-- `Path(path).touch()`: creates a zero-length file when none exists,
otherwise leaves the existing file (and its content) in place. -/
def touchSt (s : St) (p : PPath) : St :=
  if s.fs.hasFile p then { s with trace := s.trace ++ [.evTouch p] }
  else { fs := { s.fs with files := s.fs.files ++ [(p, [])] },
         trace := s.trace ++ [.evTouch p] }

/-- `create_confirmation_file(path)` from `utils.py`:
`os.makedirs(os.path.dirname(path), exist_ok=True)` then
`Path(path).touch()`. -/
def create_confirmation_file (s : St) (path : PPath) : St × Option Exc :=
  andThen (makedirsSt s (dirname path)) fun s => (touchSt s path, none)

/-- Outcomes of the external collaborators: subprocess exit status per
argument vector, and OS-level success of `os.unlink` / `os.symlink`. -/
structure Env where
  runOk : List String → Bool
  unlinkOk : PPath → Bool
  symlinkOk : PPath → Bool

/-- `subprocess.run(argv, check=True)`: on a nonzero exit status raises
`CalledProcessError` (a `SubprocessError`, not caught by the CLI's
`except (ValueError, OSError, RuntimeError)`). -/
def runCmdSt (env : Env) (s : St) (argv : List String) : St × Option Exc :=
  let s := { s with trace := s.trace ++ [.evRunCmd argv] }
  if env.runOk argv then (s, none) else (s, some (.calledProcessError argv))

/-! ## `downloader.py` -/

/-- Write the response body to the destination file (overwriting any
previous content), as the chunked write loop of `download_file` does. -/
def writeFileSt (s : St) (p : PPath) (content : List Nat) : St :=
  { fs := { s.fs with
            files := s.fs.files.filter (fun f => f.1 != p) ++ [(p, content)] },
    trace := s.trace ++ [.evWriteFile p] }

/-- `Downloader.download_file(url, dest, checksum)`: ensure the parent
directory, stream the response body into `dest`, then, when a checksum
was supplied and does not verify, raise
`ValueError("Checksum mismatch ...")`; otherwise create the confirmation
file `dest + ".confirmed"`.  The body is the successful HTTP response
(a non-success status raises before anything is written and is out of
scope of the fetched-body claims). -/
def download_file (s : St) (body : List Nat) (dest : PPath) (checksum : Option String) :
    St × Option Exc :=
  andThen (makedirsSt s (dirname dest)) fun s =>
  let s := writeFileSt s dest body
  if (match checksum with
      | some c => !verify_checksum body c
      | none => false) then
    (s, some (.valueError ("Checksum mismatch for " ++ pathStr dest)))
  else
    create_confirmation_file s (appendToLast dest ".confirmed")

/-- `Downloader.pull_model(_provider, repo_name, model_name, location,
_confirmation_file)`: ensure the destination directory and run the
`hf download` subprocess.  No confirmation file is written here
(deferred to after symlinking). -/
def pull_model (env : Env) (s : St) (repo_name model_name : String)
    (location : PPath) (_confirmation_file : PPath) : St × Option Exc :=
  andThen (makedirsSt s (dirname location)) fun s =>
  runCmdSt env s
    ["hf", "download", repo_name, model_name, "--local-dir", pathStr (dirname location)]

/-- The argument vector `pull_oci` constructs: a `podman build` invocation
when a Containerfile is configured (one `--build-arg` pair per build
argument, in order, then the build-file path and its parent directory as
context), else a plain `podman pull`. -/
def ociCmd (image : String) (containerfile : Option PPath) (build_args : List String) :
    List String :=
  match containerfile with
  | some cf =>
    ["podman", "build", "-t", image]
      ++ (build_args.map (fun arg => ["--build-arg", arg])).flatten
      ++ ["-f", pathStr cf, pathStr (dirname cf)]
  | none => ["podman", "pull", image]

/-- `Downloader.pull_oci(image, confirmation_file, containerfile,
build_args)`: ensure the confirmation file's directory, run the
constructed podman command, then immediately create the image's
confirmation file. -/
def pull_oci (env : Env) (s : St) (image : String) (confirmation_file : PPath)
    (containerfile : Option PPath) (build_args : List String) : St × Option Exc :=
  andThen (makedirsSt s (dirname confirmation_file)) fun s =>
  andThen (runCmdSt env s (ociCmd image containerfile build_args)) fun s =>
  create_confirmation_file s confirmation_file

/-- `Downloader.create_default_symlink(models_dir, first_model_location)`:
the link path is `models_dir/default-model.gguf` and the stored target is
`os.path.relpath(first_model_location, models_dir)`.  An existing entry at
the link path (checked with `os.path.lexists`) is removed first; an
`OSError` from removal becomes a fatal `RuntimeError` raised before
creation is attempted.  An `OSError` from creation likewise becomes a
fatal `RuntimeError`. -/
def create_default_symlink (env : Env) (s : St) (models_dir : PPath)
    (first_model_location : PPath) : St × Option Exc :=
  let symlink_path := joinName models_dir "default-model.gguf"
  let target := relpath first_model_location models_dir
  let step1 : St × Option Exc :=
    if s.fs.lexists symlink_path then
      if env.unlinkOk symlink_path then
        ({ fs := { s.fs with
                   files := s.fs.files.filter (fun f => f.1 != symlink_path),
                   links := s.fs.links.filter (fun l => l.1 != symlink_path) },
           trace := s.trace ++ [.evUnlink symlink_path] }, none)
      else
        (s, some (.runtimeError
          ("Failed to remove existing symlink " ++ pathStr symlink_path ++ ": OSError")))
    else (s, none)
  andThen step1 fun s =>
  if env.symlinkOk symlink_path then
    ({ fs := { s.fs with links := s.fs.links ++ [(symlink_path, target)] },
       trace := s.trace ++ [.evSymlink target symlink_path] }, none)
  else
    (s, some (.runtimeError
      ("Failed to create symlink " ++ pathStr symlink_path ++ " -> "
        ++ pathStr target ++ ": OSError")))

/-! ## `config.py` -/

structure ModelItem where
  repo_name : String
  model_name : String
  location : PPath
  confirmation_file : PPath
  checksum : Option String := none
deriving DecidableEq, Repr

structure OciItem where
  image : String
  confirmation_file : PPath
  containerfile : Option PPath := none
  build_args : List String := []
deriving DecidableEq, Repr

structure Config where
  model_provider : Option String := none
  oci_provider : String := "podman"
  default_gguf : Option String := none
  models : List ModelItem := []
  oci : List OciItem := []
deriving DecidableEq, Repr

/-- `Config.validate_config` as a predicate: provider restrictions plus,
when `default_gguf` is set and models are configured, membership of the
default among the configured model names. -/
def validate_config (cfg : Config) : Bool :=
  (match cfg.model_provider with
   | some p => cfg.models.isEmpty || ["ollama", "llama.cpp", "ramalama"].contains p
   | none => true) &&
  (cfg.oci.isEmpty || cfg.oci_provider == "podman") &&
  (match cfg.default_gguf with
   | some d => cfg.models.isEmpty || (cfg.models.map (fun (m : ModelItem) => m.model_name)).contains d
   | none => true)

/-- `Config.provider_confirmation_file`: `None` without models, else
`.neurobik-ready` next to the first configured model's confirmation
file. -/
def provider_confirmation_file (cfg : Config) : Option PPath :=
  match cfg.models with
  | [] => none
  | m :: _ => some (joinName (dirname m.confirmation_file) ".neurobik-ready")

/-! ## `cli.py` (`download` command, after configuration loading,
`check_podman` and the interactive selection) -/

/-- A TUI item: `{"name": ..., "type": "model" | "oci"}`. -/
structure Item where
  name : String
  type : String
deriving DecidableEq, Repr

/-- The offer list the `download` command builds: configured models whose
confirmation file does not exist, then every configured image
unconditionally. -/
def offerItems (cfg : Config) (fs : FS) : List Item :=
  (cfg.models.filter (fun m => !fs.hasFile m.confirmation_file)).map
      (fun m => ⟨m.model_name, "model"⟩)
    ++ cfg.oci.map (fun o => ⟨o.image, "oci"⟩)

/-- `_download_model`: look up the first configured model with the item's
name (`next` raises `StopIteration` when there is none), pull it, and on
success append it to `downloaded_models`. -/
def cliDownloadModel (env : Env) (cfg : Config) (s : St) (item : Item)
    (downloaded_models : List ModelItem) : (St × Option Exc) × List ModelItem :=
  match cfg.models.find? (fun m => m.model_name == item.name) with
  | none => ((s, some .stopIteration), downloaded_models)
  | some model =>
    match pull_model env s model.repo_name model.model_name model.location
        model.confirmation_file with
    | (s, none) => ((s, none), downloaded_models ++ [model])
    | (s, some e) => ((s, some e), downloaded_models)

/-- `_download_oci`: look up the first configured image with the item's
name and pull or build it. -/
def cliDownloadOci (env : Env) (cfg : Config) (s : St) (item : Item) : St × Option Exc :=
  match cfg.oci.find? (fun o => o.image == item.name) with
  | none => (s, some .stopIteration)
  | some o => pull_oci env s o.image o.confirmation_file o.containerfile o.build_args

/-- The selection loop of `download`: process the selected items strictly
in selection order, dispatching on the item type, accumulating the
`downloaded_models` list; the first exception aborts the loop. -/
def processSelected (env : Env) (cfg : Config) :
    List Item → St → List ModelItem → St × List ModelItem × Option Exc
  | [], s, dm => (s, dm, none)
  | item :: rest, s, dm =>
    if item.type == "model" then
      match cliDownloadModel env cfg s item dm with
      | ((s, none), dm) => processSelected env cfg rest s dm
      | ((s, some e), dm) => (s, dm, some e)
    else
      match cliDownloadOci env cfg s item with
      | (s, none) => processSelected env cfg rest s dm
      | (s, some e) => (s, dm, some e)

/-- The confirmation loop after symlinking: create each downloaded
model's confirmation file, in order. -/
def confirmModels : St → List ModelItem → St × Option Exc
  | s, [] => (s, none)
  | s, m :: rest =>
    match create_confirmation_file s m.confirmation_file with
    | (s, none) => confirmModels s rest
    | (s, some e) => (s, some e)

/-- How the run ends: clean success, an exception caught by the CLI's
`except (ValueError, OSError, RuntimeError)` clause (reported as a
single-line `Error: ...` message and `sys.exit(1)`), or an exception that
clause does not catch (the interpreter aborts with a traceback and a
nonzero status). -/
inductive Outcome where
  | success
  | caughtError (msg : String)
  | uncaught (e : Exc)
deriving DecidableEq, Repr

def caughtByCli : Exc → Bool
  | .valueError _ => true
  | .osError _ => true
  | .runtimeError _ => true
  | _ => false

def excMessage : Exc → String
  | .valueError m => m
  | .osError m => m
  | .runtimeError m => m
  | .calledProcessError argv => "CalledProcessError: " ++ String.intercalate " " argv
  | .stopIteration => "StopIteration"
  | .indexError => "IndexError: list index out of range"

def abortOutcome (e : Exc) : Outcome :=
  if caughtByCli e then .caughtError (excMessage e) else .uncaught e

/-- The process exit code of an outcome. -/
def exitCode : Outcome → Nat
  | .success => 0
  | .caughtError _ => 1
  | .uncaught _ => 1

/-- Result of one run, with a ghost snapshot of the filesystem taken at
the moment `create_default_symlink` is invoked (`none` when the symlink
step is not executed). -/
structure RunResult where
  st : St
  fsAtLink : Option FS
  downloaded : List ModelItem
  outcome : Outcome
deriving Repr

/-- The `download` command's choice of default model:
`next((m for m in cfg.models if m.model_name == cfg.default_gguf),
cfg.models[0])`, with `m0` the first configured model.  An unset
`default_gguf` matches nothing, so the first model is used. -/
def defaultModel (cfg : Config) (m0 : ModelItem) : ModelItem :=
  match cfg.default_gguf with
  | some d => (cfg.models.find? (fun (m : ModelItem) => m.model_name == d)).getD m0
  | none => m0

/-- The symlink block of `download`: only run when models were newly
downloaded; `cfg.models[0]` raises `IndexError` on an empty model list
(unreachable when `dm` is nonempty). -/
def linkPhase (env : Env) (cfg : Config) (s1 : St) (dm : List ModelItem) : St × Option Exc :=
  if dm.isEmpty then (s1, none)
  else
    match cfg.models with
    | [] => (s1, some .indexError)
    | m0 :: _ =>
      let default_model := defaultModel cfg m0
      let models_dir := dirname default_model.confirmation_file
      create_default_symlink env s1 models_dir default_model.location

/-- The post-symlink block of `download`: create the downloaded models'
confirmation files, then, if any model was downloaded and the provider
confirmation path exists, create the provider confirmation file. -/
def confirmPhase (cfg : Config) (s2 : St) (dm : List ModelItem) : St × Option Exc :=
  andThen (confirmModels s2 dm) fun s3 =>
  if dm.isEmpty then (s3, none)
  else
    match provider_confirmation_file cfg with
    | none => (s3, none)
    | some pcf => create_confirmation_file s3 pcf

/-- The `download` command of `cli.py` from after the interactive
selection: process the selected items, then, if any models were
downloaded, create the default symlink (explicitly configured
`default_gguf` first, else the first configured model), then create the
downloaded models' confirmation files, then the provider confirmation
file. -/
def downloadRun (env : Env) (cfg : Config) (fs0 : FS) (selected : List Item) : RunResult :=
  let s0 : St := ⟨fs0, []⟩
  match processSelected env cfg selected s0 [] with
  | (s1, dm, some e) => ⟨s1, none, dm, abortOutcome e⟩
  | (s1, dm, none) =>
    let snap : Option FS := if dm.isEmpty then none else some s1.fs
    match linkPhase env cfg s1 dm with
    | (s2, some e) => ⟨s2, snap, dm, abortOutcome e⟩
    | (s2, none) =>
      match confirmPhase cfg s2 dm with
      | (s3, none) => ⟨s3, snap, dm, .success⟩
      | (s3, some e) => ⟨s3, snap, dm, abortOutcome e⟩

/-! ### Concrete fixtures

A two-model/one-image configuration, an all-successful environment, an
environment whose `os.unlink` fails, and a filesystem holding a stale
default symlink; used to evaluate the theorems on concrete runs. -/

def envAll : Env := ⟨fun _ => true, fun _ => true, fun _ => true⟩

def envUnlinkFail : Env := ⟨fun _ => true, fun _ => false, fun _ => true⟩

def mItem1 : ModelItem :=
  { repo_name := "r/1", model_name := "m1.gguf",
    location := ⟨true, ["tmp", "models", "m1.gguf"]⟩,
    confirmation_file := ⟨true, ["tmp", ".m1_ready"]⟩ }

def mItem2 : ModelItem :=
  { repo_name := "r/2", model_name := "m2.gguf",
    location := ⟨true, ["tmp", "models", "m2.gguf"]⟩,
    confirmation_file := ⟨true, ["tmp", ".m2_ready"]⟩ }

def oItem : OciItem :=
  { image := "img:latest", confirmation_file := ⟨true, ["tmp", ".img_ready"]⟩ }

def cfgTwo : Config :=
  { model_provider := some "ramalama", default_gguf := some "m2.gguf",
    models := [mItem1, mItem2], oci := [oItem] }

def selTwo : List Item := [⟨"m2.gguf", "model"⟩, ⟨"img:latest", "oci"⟩, ⟨"m1.gguf", "model"⟩]

def cfgModelsOnly : Config :=
  { model_provider := some "ramalama", default_gguf := some "m2.gguf",
    models := [mItem1, mItem2] }

def selModelsOnly : List Item := [⟨"m1.gguf", "model"⟩, ⟨"m2.gguf", "model"⟩]

def fsLink : FS :=
  { links := [(⟨true, ["tmp", "default-model.gguf"]⟩, ⟨false, ["x"]⟩)] }

/-! ## Helper lemmas -/

theorem foldl_append_eq_flatten (L : List (List Nat)) (acc : List Nat) :
    L.foldl (fun a c => a ++ c) acc = acc ++ L.flatten := by
  induction L generalizing acc with
  | nil => simp
  | cons x xs ih => simp [ih]

theorem chunksGo_flatten {α : Type _} (n : Nat) (hn : 0 < n) :
    ∀ (fuel : Nat) (l : List α), l.length ≤ fuel → (chunksGo n fuel l).flatten = l := by
  intro fuel
  induction fuel with
  | zero =>
    intro l hl
    have : l = [] := List.eq_nil_of_length_eq_zero (Nat.le_zero.mp hl)
    subst this
    rfl
  | succ fuel ih =>
    intro l hl
    cases l with
    | nil => rfl
    | cons x xs =>
      have hdrop : ((x :: xs).drop n).length ≤ fuel := by
        simp only [List.length_drop, List.length_cons]
        simp only [List.length_cons] at hl
        omega
      simp only [chunksGo, List.flatten_cons, ih _ hdrop, List.take_append_drop]

theorem chunks_flatten {α : Type _} (n : Nat) (hn : 0 < n) (l : List α) :
    (chunks n l).flatten = l :=
  chunksGo_flatten n hn l.length l (Nat.le_refl _)

/-- `verify_checksum` is exact string comparison of the lowercase hex
digest with the expected value. -/
theorem verify_checksum_eq (content : List Nat) (expected : String) :
    verify_checksum content expected = (sha256Hex content == expected) := by
  unfold verify_checksum
  rw [foldl_append_eq_flatten, chunks_flatten 4096 (by omega), List.nil_append]

end Neurobik

/-! ## Claim theorems -/

open Neurobik

/-- C4.  `verify_checksum` accepts exactly the true lowercase SHA-256 hex
digest of the file content: it returns `true` on the digest itself and
`false` on every other string, with no case or whitespace normalization
— demonstrated concretely on the content `"abc"` (bytes `[97, 98, 99]`),
whose digest is the standard SHA-256 test vector, where the uppercase
form of the digest is rejected. -/
theorem verify_checksum_exact :
    (∀ C : List Nat, verify_checksum C (sha256Hex C) = true)
    ∧ (∀ (C : List Nat) (H' : String), H' ≠ sha256Hex C → verify_checksum C H' = false)
    ∧ verify_checksum [97, 98, 99]
        "ba7816bf8f01cfea414140de5dae2223b00361a396177a9cb410ff61f20015ad" = true
    ∧ verify_checksum [97, 98, 99]
        "BA7816BF8F01CFEA414140DE5DAE2223B00361A396177A9CB410FF61F20015AD" = false := by
  refine ⟨fun C => ?_, fun C H' h => ?_, by decide, by decide⟩
  · rw [verify_checksum_eq]
    exact beq_self_eq_true _
  · rw [verify_checksum_eq]
    exact beq_eq_false_iff_ne.mpr (Ne.symm h)

/-- Witness for C4: the general exactness theorem applied to the content
`"abc"` and an expected string differing from its digest. -/
theorem verify_checksum_exact_witness :
    verify_checksum [97, 98, 99]
      "ba7816bf8f01cfea414140de5dae2223b00361a396177a9cb410ff61f20015aa" = false :=
  verify_checksum_exact.2.1 [97, 98, 99]
    "ba7816bf8f01cfea414140de5dae2223b00361a396177a9cb410ff61f20015aa" (by decide)

/-- C7.  The constructed container invocation: with a build
specification and `build_args = ["A=1", "B=2"]` it is a `podman build`
command naming the target image, containing the literal subsequence
`--build-arg A=1 --build-arg B=2` in that order, the build-file path
after `-f`, and the build-file's parent directory as the build context
(last argument); generally one `--build-arg NAME=VALUE` pair per build
argument in the order given; without a build specification it is a plain
`podman pull` of the image. -/
theorem ociCmd_build_shape :
    (∀ (image : String) (cf : PPath),
      ociCmd image (some cf) ["A=1", "B=2"] =
        ["podman", "build", "-t", image, "--build-arg", "A=1", "--build-arg", "B=2",
         "-f", pathStr cf, pathStr (dirname cf)])
    ∧ (∀ (image : String) (cf : PPath) (build_args : List String),
        ociCmd image (some cf) build_args =
          ["podman", "build", "-t", image]
            ++ (build_args.map (fun arg => ["--build-arg", arg])).flatten
            ++ ["-f", pathStr cf, pathStr (dirname cf)])
    ∧ (∀ (image : String) (build_args : List String),
        ociCmd image none build_args = ["podman", "pull", image]) :=
  ⟨fun _ _ => rfl, fun _ _ _ => rfl, fun _ _ => rfl⟩


/-- Characterization of `create_confirmation_file` when the parent path
component is nonempty or the path is absolute. -/
theorem ccf_eq (s : St) (path : PPath)
    (h : (!(dirname path).abs && (dirname path).comps.isEmpty) = false) :
    create_confirmation_file s path =
      (⟨⟨s.fs.dirs ++ newDirs s.fs (dirname path),
         if s.fs.hasFile path then s.fs.files else s.fs.files ++ [(path, [])],
         s.fs.links⟩,
        s.trace ++ [.evMakedirs (dirname path), .evTouch path]⟩, none) := by
  simp only [create_confirmation_file, makedirsSt, h, Bool.false_eq_true, if_false, andThen,
    touchSt]
  cases hhf : s.fs.hasFile path with
  | false =>
    simp_all [FS.hasFile]
    exact fun x hx => hhf path x hx rfl
  | true => simp_all [FS.hasFile]

theorem newDirs_idem (fs : FS) (d : PPath) (F : List (PPath × List Nat))
    (L : List (PPath × PPath)) :
    newDirs ⟨fs.dirs ++ newDirs fs d, F, L⟩ d = [] := by
  show ((d.comps.inits.filter (fun c => !c.isEmpty)).map (fun c => PPath.mk d.abs c)).filter
      (fun p => !(FS.mk (fs.dirs ++ newDirs fs d) F L).dirs.contains p) = []
  apply List.filter_eq_nil_iff.mpr
  intro p hp
  have hm : p ∈ fs.dirs ++ newDirs fs d := by
    by_cases hmem : p ∈ fs.dirs
    · exact List.mem_append_left _ hmem
    · refine List.mem_append_right _ ?_
      show p ∈ ((d.comps.inits.filter (fun c => !c.isEmpty)).map
        (fun c => PPath.mk d.abs c)).filter (fun q => !fs.dirs.contains q)
      refine List.mem_filter.mpr ⟨hp, ?_⟩
      simp [hmem]
  simp [hm]

theorem hasFile_iff (fs : FS) (p : PPath) :
    fs.hasFile p = true ↔ ∃ c, (p, c) ∈ fs.files := by
  simp only [FS.hasFile, List.any_eq_true, beq_iff_eq]
  constructor
  · rintro ⟨⟨q, c⟩, hm, rfl⟩
    exact ⟨c, hm⟩
  · rintro ⟨c, hm⟩
    exact ⟨(p, c), hm, rfl⟩

/-- C9 counterexample: for a bare filename (a path with no directory
component), `create_confirmation_file` raises `FileNotFoundError` from
`os.makedirs("")` even though the working directory exists and the
filesystem rejects nothing, refuting "never fails due to missing parent
directories ... for every path". -/
theorem create_confirmation_bare_filename :
    create_confirmation_file ⟨{}, []⟩ ⟨false, ["foo"]⟩
      = (⟨{}, []⟩, some (.osError "FileNotFoundError: No such file or directory")) := by
  decide

/-- C9 amended: for every path that has a directory component (an
absolute path or one with a nonempty parent), confirmation-file creation
succeeds, ensures the parent directory exists, creates a zero-length
file at the path when none exists, leaves an existing file untouched,
and creating twice leaves the filesystem exactly as creating once. -/
theorem create_confirmation_ensures_file (s : St) (path : PPath)
    (hdir : path.abs = true ∨ path.comps.dropLast ≠ []) :
    ((create_confirmation_file s path).2 = none)
    ∧ ((create_confirmation_file s path).1.fs.hasFile path = true)
    ∧ (s.fs.hasFile path = false → (path, []) ∈ (create_confirmation_file s path).1.fs.files)
    ∧ (s.fs.hasFile path = true → (create_confirmation_file s path).1.fs.files = s.fs.files)
    ∧ ((create_confirmation_file (create_confirmation_file s path).1 path).1.fs
        = (create_confirmation_file s path).1.fs) := by
  have hvalid : (!(dirname path).abs && (dirname path).comps.isEmpty) = false := by
    rcases hdir with h | h
    · simp [dirname, h]
    · simp [dirname, List.isEmpty_iff, h]
  rw [ccf_eq s path hvalid]
  refine ⟨rfl, ?_, ?_, ?_, ?_⟩
  · cases hhf : s.fs.hasFile path with
    | false => simp [hhf, FS.hasFile, List.any_append]
    | true => simpa [hhf, FS.hasFile] using hhf
  · intro hhf
    simp [hhf]
  · intro hhf
    simp [hhf]
  · rw [ccf_eq _ path hvalid]
    have hf2 : (FS.mk (s.fs.dirs ++ newDirs s.fs (dirname path))
        (if s.fs.hasFile path then s.fs.files else s.fs.files ++ [(path, [])])
        s.fs.links).hasFile path = true := by
      cases hhf : s.fs.hasFile path with
      | false => simp [hhf, FS.hasFile, List.any_append]
      | true => simpa [hhf, FS.hasFile] using hhf
    simp only [hf2, if_true]
    have := newDirs_idem s.fs (dirname path)
      (if s.fs.hasFile path then s.fs.files else s.fs.files ++ [(path, [])]) s.fs.links
    simp [this]

/-- C10.  When the offer list is non-empty but the interactive selection
returns the empty subset, the run completes with exit code 0 and
performs no effect at all: the filesystem is unchanged (no confirmation
file, no provider marker, no symlink change) and the event trace is
empty (no fetch subprocess is invoked, no unlink/symlink executed). -/
theorem empty_selection_no_effects (env : Env) (cfg : Config) (fs0 : FS)
    (_hoffer : offerItems cfg fs0 ≠ []) :
    downloadRun env cfg fs0 [] = ⟨⟨fs0, []⟩, none, [], .success⟩
    ∧ exitCode (downloadRun env cfg fs0 []).outcome = 0 :=
  ⟨rfl, rfl⟩

/-- Witness for C10 at a configuration with one not-yet-confirmed model,
whose offer list is non-empty. -/
theorem empty_selection_no_effects_witness :
    downloadRun ⟨fun _ => true, fun _ => true, fun _ => true⟩
        { models := [{ repo_name := "r/1", model_name := "m1.gguf",
                       location := ⟨true, ["tmp", "models", "m1.gguf"]⟩,
                       confirmation_file := ⟨true, ["tmp", ".m1_ready"]⟩ }] } {} []
      = ⟨⟨{}, []⟩, none, [], .success⟩ :=
  (empty_selection_no_effects _ _ _ (by decide)).1

/-- C6 (failing input): a run that selects a configured image whose
`podman pull` exits nonzero.  The run aborts before the image's
confirmation file is written and the process exits nonzero — but the
raised `CalledProcessError` is not among the exception classes the CLI
catches (`ValueError, OSError, RuntimeError`), so it escapes as a
traceback instead of the single-line error report the specification
promises. -/
theorem subprocess_failure_uncaught :
    (downloadRun ⟨fun _ => false, fun _ => true, fun _ => true⟩
        { oci := [{ image := "img:latest",
                    confirmation_file := ⟨true, ["tmp", ".img_ready"]⟩ }] }
        {} [⟨"img:latest", "oci"⟩]).outcome
      = .uncaught (.calledProcessError ["podman", "pull", "img:latest"])
    ∧ exitCode (downloadRun ⟨fun _ => false, fun _ => true, fun _ => true⟩
        { oci := [{ image := "img:latest",
                    confirmation_file := ⟨true, ["tmp", ".img_ready"]⟩ }] }
        {} [⟨"img:latest", "oci"⟩]).outcome = 1
    ∧ (downloadRun ⟨fun _ => false, fun _ => true, fun _ => true⟩
        { oci := [{ image := "img:latest",
                    confirmation_file := ⟨true, ["tmp", ".img_ready"]⟩ }] }
        {} [⟨"img:latest", "oci"⟩]).st.fs.hasFile ⟨true, ["tmp", ".img_ready"]⟩ = false
    ∧ caughtByCli (.calledProcessError ["podman", "pull", "img:latest"]) = false := by
  refine ⟨by decide, by decide, by decide, by decide⟩

/-- C8 counterexample: a successful direct HTTP fetch (content
`[97, 98, 99]`, matching checksum) writes the destination file AND a
second file, the confirmation marker `dest + ".confirmed"`, refuting
"writes exactly one file". -/
theorem download_file_writes_confirmation :
    ((download_file ⟨{}, []⟩ [97, 98, 99] ⟨true, ["tmp", "f.gguf"]⟩
        (some "ba7816bf8f01cfea414140de5dae2223b00361a396177a9cb410ff61f20015ad")).2 = none)
    ∧ ((download_file ⟨{}, []⟩ [97, 98, 99] ⟨true, ["tmp", "f.gguf"]⟩
        (some "ba7816bf8f01cfea414140de5dae2223b00361a396177a9cb410ff61f20015ad")).1.fs.hasFile
          ⟨true, ["tmp", "f.gguf"]⟩ = true)
    ∧ ((download_file ⟨{}, []⟩ [97, 98, 99] ⟨true, ["tmp", "f.gguf"]⟩
        (some "ba7816bf8f01cfea414140de5dae2223b00361a396177a9cb410ff61f20015ad")).1.fs.hasFile
          ⟨true, ["tmp", "f.gguf.confirmed"]⟩ = true) := by
  refine ⟨by decide, by decide, by decide⟩

theorem appendToLast_valid (p : PPath) (suf : String)
    (h : p.abs = true ∨ p.comps.dropLast ≠ []) :
    (appendToLast p suf).abs = true ∨ (appendToLast p suf).comps.dropLast ≠ [] := by
  rcases h with h | h
  · left
    unfold appendToLast
    cases p.comps <;> simpa
  · right
    unfold appendToLast
    cases hc : p.comps with
    | nil => simp [hc] at h
    | cons a as =>
      simp only
      rw [List.dropLast_concat]
      rw [hc] at h
      exact h

theorem dirname_valid_iff (p : PPath) :
    (!(dirname p).abs && (dirname p).comps.isEmpty) = false
      ↔ (p.abs = true ∨ p.comps.dropLast ≠ []) := by
  constructor
  · intro h
    by_cases ha : p.abs = true
    · exact Or.inl ha
    · right
      simp [dirname, ha] at h
      simpa [List.isEmpty_iff] using h
  · intro h
    rcases h with h | h
    · simp [dirname, h]
    · simp [dirname, List.isEmpty_iff, h]

/-- C8 amended: a direct HTTP fetch writes the destination file and, on
success, exactly one further file, the confirmation marker
`dest + ".confirmed"`; on a checksum mismatch it raises the distinct
"Checksum mismatch" `ValueError`, the destination file is left in place,
and no file other than the destination is written (in particular no
confirmation file). -/
theorem download_file_effects (s : St) (body : List Nat) (dest : PPath) (c : String)
    (hdir : dest.abs = true ∨ dest.comps.dropLast ≠ []) :
    (verify_checksum body c = false →
      ((download_file s body dest (some c)).2
          = some (.valueError ("Checksum mismatch for " ++ pathStr dest)))
      ∧ ((download_file s body dest (some c)).1.fs.hasFile dest = true)
      ∧ (∀ f ∈ (download_file s body dest (some c)).1.fs.files, f ∈ s.fs.files ∨ f.1 = dest))
    ∧ (verify_checksum body c = true →
      ((download_file s body dest (some c)).2 = none)
      ∧ ((download_file s body dest (some c)).1.fs.hasFile dest = true)
      ∧ ((download_file s body dest (some c)).1.fs.hasFile
          (appendToLast dest ".confirmed") = true)
      ∧ (∀ f ∈ (download_file s body dest (some c)).1.fs.files,
          f ∈ s.fs.files ∨ f.1 = dest ∨ f.1 = appendToLast dest ".confirmed")) := by
  have hvalid : (!(dirname dest).abs && (dirname dest).comps.isEmpty) = false :=
    (dirname_valid_iff dest).mpr hdir
  have hvalid2 : (!(dirname (appendToLast dest ".confirmed")).abs
      && (dirname (appendToLast dest ".confirmed")).comps.isEmpty) = false :=
    (dirname_valid_iff _).mpr (appendToLast_valid dest ".confirmed" hdir)
  constructor
  · intro hv
    simp only [download_file, makedirsSt, hvalid, Bool.false_eq_true, if_false, andThen,
      writeFileSt, hv, Bool.not_false, if_true]
    refine ⟨trivial, ?_, ?_⟩
    · simp [FS.hasFile, List.any_append]
    · intro f hf
      rcases List.mem_append.mp hf with hf | hf
      · exact Or.inl (List.mem_of_mem_filter hf)
      · simp at hf
        subst hf
        exact Or.inr rfl
  · intro hv
    simp only [download_file, makedirsSt, hvalid, Bool.false_eq_true, if_false, andThen,
      writeFileSt, hv, Bool.not_true, if_false]
    rw [ccf_eq _ _ hvalid2]
    refine ⟨by simp, ?_, ?_, ?_⟩
    · dsimp only
      split <;> simp [FS.hasFile, List.any_append]
    · dsimp only
      split
      · rename_i hcond
        simpa [FS.hasFile] using hcond
      · simp [FS.hasFile, List.any_append]
    · dsimp only
      split
      · intro f hf
        rcases List.mem_append.mp hf with hf | hf
        · exact Or.inl (List.mem_of_mem_filter hf)
        · simp at hf
          subst hf
          exact Or.inr (Or.inl rfl)
      · intro f hf
        rcases List.mem_append.mp hf with hf | hf
        · rcases List.mem_append.mp hf with hf | hf
          · exact Or.inl (List.mem_of_mem_filter hf)
          · simp at hf
            subst hf
            exact Or.inr (Or.inl rfl)
        · simp at hf
          subst hf
          exact Or.inr (Or.inr rfl)

/-- Witness for C9: the amended theorem applied to a path with a parent
directory component. -/
theorem create_confirmation_ensures_file_witness :
    ((create_confirmation_file ⟨{}, []⟩ ⟨true, ["tmp", ".m1_ready"]⟩).2 = none)
    ∧ ((create_confirmation_file ⟨{}, []⟩
        ⟨true, ["tmp", ".m1_ready"]⟩).1.fs.hasFile ⟨true, ["tmp", ".m1_ready"]⟩ = true) :=
  ⟨(create_confirmation_ensures_file ⟨{}, []⟩ ⟨true, ["tmp", ".m1_ready"]⟩ (Or.inl rfl)).1,
   (create_confirmation_ensures_file ⟨{}, []⟩ ⟨true, ["tmp", ".m1_ready"]⟩ (Or.inl rfl)).2.1⟩

/-- Witness for C8: the amended theorem applied to concrete content and
a concrete non-matching checksum. -/
theorem download_file_effects_witness :
    (download_file ⟨{}, []⟩ [97, 98, 99] ⟨true, ["tmp", "f.gguf"]⟩ (some "00")).2
      = some (.valueError ("Checksum mismatch for " ++ pathStr ⟨true, ["tmp", "f.gguf"]⟩)) :=
  ((download_file_effects ⟨{}, []⟩ [97, 98, 99] ⟨true, ["tmp", "f.gguf"]⟩ "00"
      (Or.inl rfl)).1 (by decide)).1

theorem dropCommon_spec (p s : List String) :
    ∃ c, p = c ++ (dropCommon p s).1 ∧ s = c ++ (dropCommon p s).2 := by
  induction p generalizing s with
  | nil =>
    refine ⟨[], ?_, ?_⟩ <;> cases s <;> rfl
  | cons a as ih =>
    cases s with
    | nil => exact ⟨[], rfl, rfl⟩
    | cons b bs =>
      by_cases hab : a = b
      · subst hab
        obtain ⟨c, hc1, hc2⟩ := ih bs
        refine ⟨a :: c, ?_, ?_⟩ <;> simp only [dropCommon, if_pos rfl] <;>
          simp [← hc1, ← hc2]
      · refine ⟨[], ?_, ?_⟩ <;> simp [dropCommon, hab]

theorem resolve_appendAll (p : List String) :
    ∀ dir, (∀ x ∈ p, x ≠ ".." ∧ x ≠ ".") → resolveComps dir p = dir ++ p := by
  induction p with
  | nil => intro dir _; simp [resolveComps]
  | cons c rest ih =>
    intro dir h
    have hc := h c (List.mem_cons_self _ _)
    simp only [resolveComps, if_neg hc.1, if_neg hc.2]
    rw [ih (dir ++ [c]) (fun x hx => h x (List.mem_cons_of_mem _ hx))]
    simp

theorem resolve_replicate (p : List String) (hp : ∀ x ∈ p, x ≠ ".." ∧ x ≠ ".") :
    ∀ (n : Nat) (d : List String), n ≤ d.length →
      resolveComps d (List.replicate n ".." ++ p) = d.take (d.length - n) ++ p := by
  intro n
  induction n with
  | zero =>
    intro d _
    simpa using resolve_appendAll p d hp
  | succ n ih =>
    intro d hn
    simp only [List.replicate_succ, List.cons_append, resolveComps, List.append_eq]
    rw [if_pos trivial]
    rw [ih d.dropLast (by simp only [List.length_dropLast]; omega)]
    rw [List.dropLast_eq_take, List.take_take]
    congr 2
    simp only [List.length_take]
    omega

theorem relpath_resolves (path start : PPath)
    (hwf : ∀ x ∈ path.comps, x ≠ ".." ∧ x ≠ ".") :
    resolveComps start.comps (relpath path start).comps = path.comps := by
  obtain ⟨c, hp, hs⟩ := dropCommon_spec path.comps start.comps
  set r1 := (dropCommon path.comps start.comps).1 with hr1
  set r2 := (dropCommon path.comps start.comps).2 with hr2
  have hwf1 : ∀ x ∈ r1, x ≠ ".." ∧ x ≠ "." := fun x hx =>
    hwf x (hp ▸ List.mem_append_right c hx)
  show resolveComps start.comps (relComps path.comps start.comps) = path.comps
  unfold relComps
  dsimp only
  rw [← hr1, ← hr2, List.map_const', hs]
  rw [resolve_replicate r1 hwf1 r2.length (c ++ r2) (by simp)]
  have hlen : (c ++ r2).length - r2.length = c.length := by simp
  rw [hlen, List.take_left, ← hp]

theorem hasFile_mono {fs fs' : FS} (h : ∀ f ∈ fs.files, f ∈ fs'.files) (q : PPath) :
    fs.hasFile q = true → fs'.hasFile q = true := by
  intro hq
  obtain ⟨c, hc⟩ := (hasFile_iff fs q).mp hq
  exact (hasFile_iff fs' q).mpr ⟨c, h _ hc⟩

theorem ccf_spec (s : St) (p : PPath) :
    ((create_confirmation_file s p).1.fs.links = s.fs.links)
    ∧ (∀ f ∈ s.fs.files, f ∈ (create_confirmation_file s p).1.fs.files)
    ∧ (∀ f ∈ (create_confirmation_file s p).1.fs.files, f ∈ s.fs.files ∨ f.1 = p)
    ∧ ((create_confirmation_file s p).2 = none →
        (create_confirmation_file s p).1.fs.hasFile p = true)
    ∧ (∃ t, (create_confirmation_file s p).1.trace = s.trace ++ t) := by
  by_cases hval : (!(dirname p).abs && (dirname p).comps.isEmpty) = true
  · simp only [create_confirmation_file, makedirsSt, hval, if_true, andThen]
    exact ⟨by trivial, fun f hf => hf, fun f hf => Or.inl hf, by simp, ⟨[], by simp⟩⟩
  · simp only [Bool.not_eq_true] at hval
    rw [ccf_eq s p hval]
    refine ⟨rfl, ?_, ?_, ?_, ?_⟩
    · intro f hf
      cases hhf : s.fs.hasFile p with
      | true => simpa [hhf] using hf
      | false =>
        simp only [hhf, Bool.false_eq_true, if_false]
        exact List.mem_append_left _ hf
    · intro f hf
      cases hhf : s.fs.hasFile p with
      | true =>
        simp only [hhf, if_true] at hf
        exact Or.inl hf
      | false =>
        simp only [hhf, Bool.false_eq_true, if_false] at hf
        rcases List.mem_append.mp hf with hf | hf
        · exact Or.inl hf
        · simp at hf
          subst hf
          exact Or.inr rfl
    · intro _
      cases hhf : s.fs.hasFile p with
      | false => simp [FS.hasFile, List.any_append]
      | true => simpa [hhf, FS.hasFile] using hhf
    · exact ⟨[.evMakedirs (dirname p), .evTouch p], rfl⟩

theorem pull_model_spec (env : Env) (s : St) (rn mn : String) (loc conf : PPath) :
    ((pull_model env s rn mn loc conf).1.fs.files = s.fs.files)
    ∧ ((pull_model env s rn mn loc conf).1.fs.links = s.fs.links)
    ∧ (∃ t, (pull_model env s rn mn loc conf).1.trace = s.trace ++ t) := by
  unfold pull_model
  by_cases hval : (!(dirname loc).abs && (dirname loc).comps.isEmpty) = true
  · simp only [makedirsSt, hval, if_true, andThen]
    refine ⟨by trivial, by trivial, ⟨[], by simp⟩⟩
  · simp only [Bool.not_eq_true] at hval
    simp only [makedirsSt, hval, Bool.false_eq_true, if_false, andThen, runCmdSt]
    by_cases hok : env.runOk ["hf", "download", rn, mn, "--local-dir", pathStr (dirname loc)]
      = true
    · simp only [hok, if_true]
      refine ⟨by trivial, by trivial,
        ⟨[.evMakedirs (dirname loc),
          .evRunCmd ["hf", "download", rn, mn, "--local-dir", pathStr (dirname loc)]],
         by simp⟩⟩
    · simp only [hok, Bool.false_eq_true, if_false]
      refine ⟨by trivial, by trivial,
        ⟨[.evMakedirs (dirname loc),
          .evRunCmd ["hf", "download", rn, mn, "--local-dir", pathStr (dirname loc)]],
         by simp⟩⟩

theorem pull_oci_spec (env : Env) (s : St) (image : String) (conf : PPath)
    (cf : Option PPath) (args : List String) :
    ((pull_oci env s image conf cf args).1.fs.links = s.fs.links)
    ∧ (∀ f ∈ s.fs.files, f ∈ (pull_oci env s image conf cf args).1.fs.files)
    ∧ (∀ f ∈ (pull_oci env s image conf cf args).1.fs.files, f ∈ s.fs.files ∨ f.1 = conf)
    ∧ ((pull_oci env s image conf cf args).2 = none →
        (pull_oci env s image conf cf args).1.trace
          = s.trace ++ [.evMakedirs (dirname conf), .evRunCmd (ociCmd image cf args),
                        .evMakedirs (dirname conf), .evTouch conf]
        ∧ (pull_oci env s image conf cf args).1.fs.hasFile conf = true)
    ∧ (∃ t, (pull_oci env s image conf cf args).1.trace = s.trace ++ t) := by
  unfold pull_oci
  by_cases hval : (!(dirname conf).abs && (dirname conf).comps.isEmpty) = true
  · simp only [makedirsSt, hval, if_true, andThen]
    exact ⟨by trivial, fun f hf => hf, fun f hf => Or.inl hf, by simp, ⟨[], by simp⟩⟩
  · simp only [Bool.not_eq_true] at hval
    simp only [makedirsSt, hval, Bool.false_eq_true, if_false, andThen, runCmdSt]
    by_cases hok : env.runOk (ociCmd image cf args) = true
    · simp only [hok, if_true]
      rw [ccf_eq _ _ hval]
      refine ⟨by trivial, ?_, ?_, ?_, ?_⟩
      · intro f hf
        cases hhf : FS.hasFile ⟨s.fs.dirs ++ newDirs s.fs (dirname conf),
            s.fs.files, s.fs.links⟩ conf with
        | true => simpa [hhf] using hf
        | false =>
          simp only [hhf, Bool.false_eq_true, if_false]
          exact List.mem_append_left _ hf
      · intro f hf
        cases hhf : FS.hasFile ⟨s.fs.dirs ++ newDirs s.fs (dirname conf),
            s.fs.files, s.fs.links⟩ conf with
        | true =>
          simp only [hhf, if_true] at hf
          exact Or.inl hf
        | false =>
          simp only [hhf, Bool.false_eq_true, if_false] at hf
          rcases List.mem_append.mp hf with hf | hf
          · exact Or.inl hf
          · simp at hf
            subst hf
            exact Or.inr rfl
      · intro _
        refine ⟨by simp, ?_⟩
        cases hhf : FS.hasFile ⟨s.fs.dirs ++ newDirs s.fs (dirname conf),
            s.fs.files, s.fs.links⟩ conf with
        | false => simp [FS.hasFile, List.any_append]
        | true => simpa [hhf, FS.hasFile] using hhf
      · exact ⟨[.evMakedirs (dirname conf), .evRunCmd (ociCmd image cf args),
                .evMakedirs (dirname conf), .evTouch conf], by simp⟩
    · simp only [hok, Bool.false_eq_true, if_false]
      refine ⟨by trivial, fun f hf => hf, fun f hf => Or.inl hf, by simp,
        ⟨[.evMakedirs (dirname conf), .evRunCmd (ociCmd image cf args)], by simp⟩⟩

theorem processSelected_spec (env : Env) (cfg : Config) :
    ∀ (items : List Item) (s : St) (dm : List ModelItem),
    ((processSelected env cfg items s dm).1.fs.links = s.fs.links)
    ∧ (∀ f ∈ s.fs.files, f ∈ (processSelected env cfg items s dm).1.fs.files)
    ∧ (∀ f ∈ (processSelected env cfg items s dm).1.fs.files,
        f ∈ s.fs.files ∨ ∃ o ∈ cfg.oci, f.1 = o.confirmation_file)
    ∧ (∀ m ∈ (processSelected env cfg items s dm).2.1,
        m ∈ dm ∨ ∃ it ∈ items, it.type = "model"
          ∧ cfg.models.find? (fun m' => m'.model_name == it.name) = some m)
    ∧ (∃ t, (processSelected env cfg items s dm).1.trace = s.trace ++ t) := by
  intro items
  induction items with
  | nil =>
    intro s dm
    exact ⟨rfl, fun f hf => hf, fun f hf => Or.inl hf, fun m hm => Or.inl hm,
      ⟨[], by simp [processSelected]⟩⟩
  | cons item rest ih =>
    intro s dm
    simp only [processSelected]
    by_cases hty : (item.type == "model") = true
    · simp only [hty, if_true, cliDownloadModel]
      cases hfind : cfg.models.find? (fun m' => m'.model_name == item.name) with
      | none =>
        exact ⟨rfl, fun f hf => hf, fun f hf => Or.inl hf, fun m hm => Or.inl hm, ⟨[], by simp⟩⟩
      | some model =>
        obtain ⟨hp1, hp2, hp3⟩ := pull_model_spec env s model.repo_name model.model_name
          model.location model.confirmation_file
        rcases hpm : pull_model env s model.repo_name model.model_name
          model.location model.confirmation_file with ⟨s', e⟩
        rw [hpm] at hp1 hp2 hp3
        dsimp only at hp1 hp2 hp3
        dsimp only
        rw [hpm]
        cases e with
        | some e =>
          exact ⟨hp2, fun f hf => hp1 ▸ hf, fun f hf => Or.inl (hp1 ▸ hf),
            fun m hm => Or.inl hm, hp3⟩
        | none =>
          obtain ⟨ih1, ih2, ih3, ih4, ih5⟩ := ih s' (dm ++ [model])
          refine ⟨?_, ?_, ?_, ?_, ?_⟩
          · exact ih1.trans hp2
          · intro f hf
            exact ih2 f (hp1 ▸ hf)
          · intro f hf
            rcases ih3 f hf with hf | hf
            · exact Or.inl (hp1 ▸ hf)
            · exact Or.inr hf
          · intro m hm
            rcases ih4 m hm with hm | hm
            · rcases List.mem_append.mp hm with hm | hm
              · exact Or.inl hm
              · refine Or.inr ⟨item, List.mem_cons_self _ _, ?_, ?_⟩
                · exact (beq_iff_eq.mp hty)
                · simp only [List.mem_singleton] at hm
                  subst hm
                  exact hfind
            · obtain ⟨it, hit, h1, h2⟩ := hm
              exact Or.inr ⟨it, List.mem_cons_of_mem _ hit, h1, h2⟩
          · obtain ⟨t1, ht1⟩ := hp3
            obtain ⟨t2, ht2⟩ := ih5
            exact ⟨t1 ++ t2, by rw [ht2, ht1, List.append_assoc]⟩
    · simp only [hty, Bool.false_eq_true, if_false, cliDownloadOci]
      cases hfind : cfg.oci.find? (fun o' => o'.image == item.name) with
      | none =>
        exact ⟨rfl, fun f hf => hf, fun f hf => Or.inl hf, fun m hm => Or.inl hm, ⟨[], by simp⟩⟩
      | some o =>
        have hoin : o ∈ cfg.oci := List.mem_of_find?_eq_some hfind
        obtain ⟨hq1, hq2, hq3, _, hq5⟩ := pull_oci_spec env s o.image o.confirmation_file
          o.containerfile o.build_args
        rcases hpo : pull_oci env s o.image o.confirmation_file o.containerfile o.build_args
          with ⟨s', e⟩
        rw [hpo] at hq1 hq2 hq3 hq5
        dsimp only at hq1 hq2 hq3 hq5
        dsimp only
        rw [hpo]
        cases e with
        | some e =>
          refine ⟨hq1, hq2, ?_, fun m hm => Or.inl hm, hq5⟩
          intro f hf
          rcases hq3 f hf with hf | hf
          · exact Or.inl hf
          · exact Or.inr ⟨o, hoin, hf⟩
        | none =>
          obtain ⟨ih1, ih2, ih3, ih4, ih5⟩ := ih s' dm
          refine ⟨?_, ?_, ?_, ?_, ?_⟩
          · exact ih1.trans hq1
          · intro f hf
            exact ih2 f (hq2 f hf)
          · intro f hf
            rcases ih3 f hf with hf | hf
            · rcases hq3 f hf with hf | hf
              · exact Or.inl hf
              · exact Or.inr ⟨o, hoin, hf⟩
            · exact Or.inr hf
          · intro m hm
            rcases ih4 m hm with hm | hm
            · exact Or.inl hm
            · obtain ⟨it, hit, h1, h2⟩ := hm
              exact Or.inr ⟨it, List.mem_cons_of_mem _ hit, h1, h2⟩
          · obtain ⟨t1, ht1⟩ := hq5
            obtain ⟨t2, ht2⟩ := ih5
            exact ⟨t1 ++ t2, by rw [ht2, ht1, List.append_assoc]⟩

theorem processSelected_oci_segment (env : Env) (cfg : Config) :
    ∀ (items : List Item) (s : St) (dm : List ModelItem),
    (processSelected env cfg items s dm).2.2 = none →
    ∀ it ∈ items, (it.type == "model") = false →
    ∀ o, cfg.oci.find? (fun o' => o'.image == it.name) = some o →
    ∃ pre post, (processSelected env cfg items s dm).1.trace
      = pre ++ [.evRunCmd (ociCmd o.image o.containerfile o.build_args),
                .evMakedirs (dirname o.confirmation_file),
                .evTouch o.confirmation_file] ++ post := by
  intro items
  induction items with
  | nil =>
    intro s dm _ it hit
    exact absurd hit (List.not_mem_nil it)
  | cons item rest ih =>
    intro s dm hnone it hit hty o hfind
    simp only [processSelected] at hnone ⊢
    rcases List.mem_cons.mp hit with hit | hit
    · subst hit
      simp only [hty, Bool.false_eq_true, if_false, cliDownloadOci, hfind] at hnone ⊢
      obtain ⟨_, _, _, hq4, _⟩ := pull_oci_spec env s o.image o.confirmation_file
        o.containerfile o.build_args
      rcases hpo : pull_oci env s o.image o.confirmation_file o.containerfile o.build_args
        with ⟨s', e⟩
      rw [hpo] at hq4 hnone
      cases e with
      | some e => simp at hnone
      | none =>
        dsimp only at hnone ⊢
        obtain ⟨htr, _⟩ := hq4 rfl
        dsimp only at htr
        obtain ⟨t, ht⟩ := (processSelected_spec env cfg rest s' dm).2.2.2.2
        refine ⟨s.trace ++ [.evMakedirs (dirname o.confirmation_file)], t, ?_⟩
        rw [ht, htr]
        simp
    · by_cases htyh : (item.type == "model") = true
      · simp only [htyh, if_true, cliDownloadModel] at hnone ⊢
        cases hfind2 : cfg.models.find? (fun m' => m'.model_name == item.name) with
        | none => simp [hfind2] at hnone
        | some model =>
          simp only [hfind2] at hnone ⊢
          rcases hpm : pull_model env s model.repo_name model.model_name
            model.location model.confirmation_file with ⟨s', e⟩
          rw [hpm] at hnone
          cases e with
          | some e => simp at hnone
          | none =>
            dsimp only at hnone ⊢
            exact ih s' (dm ++ [model]) hnone it hit hty o hfind
      · simp only [htyh, Bool.false_eq_true, if_false, cliDownloadOci] at hnone ⊢
        cases hfind2 : cfg.oci.find? (fun o' => o'.image == item.name) with
        | none => simp [hfind2] at hnone
        | some o2 =>
          simp only [hfind2] at hnone ⊢
          rcases hpo : pull_oci env s o2.image o2.confirmation_file o2.containerfile
            o2.build_args with ⟨s', e⟩
          rw [hpo] at hnone
          cases e with
          | some e => simp at hnone
          | none =>
            dsimp only at hnone ⊢
            exact ih s' dm hnone it hit hty o hfind

theorem confirmModels_spec :
    ∀ (dm : List ModelItem) (s : St),
    ((confirmModels s dm).1.fs.links = s.fs.links)
    ∧ (∀ f ∈ s.fs.files, f ∈ (confirmModels s dm).1.fs.files)
    ∧ ((confirmModels s dm).2 = none →
        ∀ m ∈ dm, (confirmModels s dm).1.fs.hasFile m.confirmation_file = true)
    ∧ (∀ f ∈ (confirmModels s dm).1.fs.files,
        f ∈ s.fs.files ∨ ∃ m ∈ dm, f.1 = m.confirmation_file)
    ∧ (∃ t, (confirmModels s dm).1.trace = s.trace ++ t) := by
  intro dm
  induction dm with
  | nil =>
    intro s
    exact ⟨rfl, fun f hf => hf, fun _ m hm => absurd hm (List.not_mem_nil m),
      fun f hf => Or.inl hf, ⟨[], by simp [confirmModels]⟩⟩
  | cons m rest ih =>
    intro s
    simp only [confirmModels]
    obtain ⟨c1, c2, c3, c4, c5⟩ := ccf_spec s m.confirmation_file
    rcases hc : create_confirmation_file s m.confirmation_file with ⟨s', e⟩
    rw [hc] at c1 c2 c3 c4 c5
    dsimp only at c1 c2 c3 c4 c5
    cases e with
    | some e =>
      dsimp only
      refine ⟨c1, c2, by simp, ?_, c5⟩
      intro f hf
      rcases c3 f hf with h | h
      · exact Or.inl h
      · exact Or.inr ⟨m, List.mem_cons_self _ _, h⟩
    | none =>
      dsimp only
      obtain ⟨ih1, ih2, ih3, ih4, ih5⟩ := ih s'
      refine ⟨ih1.trans c1, fun f hf => ih2 f (c2 f hf), ?_, ?_, ?_⟩
      · intro hnone m' hm'
        rcases List.mem_cons.mp hm' with hm' | hm'
        · subst hm'
          exact hasFile_mono ih2 _ (c4 rfl)
        · exact ih3 hnone m' hm'
      · intro f hf
        rcases ih4 f hf with hf | hf
        · rcases c3 f hf with hf | hf
          · exact Or.inl hf
          · exact Or.inr ⟨m, List.mem_cons_self _ _, hf⟩
        · obtain ⟨m', hm', hf⟩ := hf
          exact Or.inr ⟨m', List.mem_cons_of_mem _ hm', hf⟩
      · obtain ⟨t1, ht1⟩ := c5
        obtain ⟨t2, ht2⟩ := ih5
        exact ⟨t1 ++ t2, by rw [ht2, ht1, List.append_assoc]⟩

theorem cds_removal_fail (env : Env) (s : St) (mdir loc : PPath)
    (hex : s.fs.lexists (joinName mdir "default-model.gguf") = true)
    (hun : env.unlinkOk (joinName mdir "default-model.gguf") = false) :
    create_default_symlink env s mdir loc
      = (s, some (.runtimeError ("Failed to remove existing symlink "
          ++ pathStr (joinName mdir "default-model.gguf") ++ ": OSError"))) := by
  unfold create_default_symlink
  dsimp only
  simp only [hex, if_true, hun, Bool.false_eq_true, if_false, andThen]

theorem cds_create_fail (env : Env) (s : St) (mdir loc : PPath)
    (hsy : env.symlinkOk (joinName mdir "default-model.gguf") = false)
    (h : s.fs.lexists (joinName mdir "default-model.gguf") = false
      ∨ env.unlinkOk (joinName mdir "default-model.gguf") = true) :
    (create_default_symlink env s mdir loc).2
      = some (.runtimeError ("Failed to create symlink "
          ++ pathStr (joinName mdir "default-model.gguf") ++ " -> "
          ++ pathStr (relpath loc mdir) ++ ": OSError")) := by
  unfold create_default_symlink
  dsimp only
  by_cases hex : s.fs.lexists (joinName mdir "default-model.gguf") = true
  · have hun : env.unlinkOk (joinName mdir "default-model.gguf") = true := by
      rcases h with h | h
      · rw [hex] at h
        exact absurd h (by simp)
      · exact h
    simp only [hex, if_true, hun, andThen, hsy, Bool.false_eq_true, if_false]
  · simp only [Bool.not_eq_true] at hex
    simp only [hex, Bool.false_eq_true, if_false, andThen, hsy]

theorem cds_files (env : Env) (s : St) (mdir loc : PPath) :
    ∀ f ∈ (create_default_symlink env s mdir loc).1.fs.files, f ∈ s.fs.files := by
  unfold create_default_symlink
  dsimp only
  by_cases hex : s.fs.lexists (joinName mdir "default-model.gguf") = true
  · by_cases hun : env.unlinkOk (joinName mdir "default-model.gguf") = true
    · by_cases hsy : env.symlinkOk (joinName mdir "default-model.gguf") = true
      · simp only [hex, if_true, hun, andThen, hsy]
        exact fun f hf => List.mem_of_mem_filter hf
      · simp only [hex, if_true, hun, andThen, hsy, Bool.false_eq_true, if_false]
        exact fun f hf => List.mem_of_mem_filter hf
    · simp only [Bool.not_eq_true] at hun
      simp only [hex, if_true, hun, Bool.false_eq_true, if_false, andThen]
      exact fun f hf => hf
  · simp only [Bool.not_eq_true] at hex
    by_cases hsy : env.symlinkOk (joinName mdir "default-model.gguf") = true
    · simp only [hex, Bool.false_eq_true, if_false, andThen, hsy, if_true]
      exact fun f hf => hf
    · simp only [hex, Bool.false_eq_true, if_false, andThen, hsy]
      exact fun f hf => hf

theorem cds_files_keep (env : Env) (s : St) (mdir loc : PPath) :
    ∀ f ∈ s.fs.files, f.1 ≠ joinName mdir "default-model.gguf" →
      f ∈ (create_default_symlink env s mdir loc).1.fs.files := by
  unfold create_default_symlink
  dsimp only
  by_cases hex : s.fs.lexists (joinName mdir "default-model.gguf") = true
  · by_cases hun : env.unlinkOk (joinName mdir "default-model.gguf") = true
    · by_cases hsy : env.symlinkOk (joinName mdir "default-model.gguf") = true
      · simp only [hex, if_true, hun, andThen, hsy]
        intro f hf hne
        exact List.mem_filter.mpr ⟨hf, by simpa using hne⟩
      · simp only [hex, if_true, hun, andThen, hsy, Bool.false_eq_true, if_false]
        intro f hf hne
        exact List.mem_filter.mpr ⟨hf, by simpa using hne⟩
    · simp only [Bool.not_eq_true] at hun
      simp only [hex, if_true, hun, Bool.false_eq_true, if_false, andThen]
      exact fun f hf _ => hf
  · simp only [Bool.not_eq_true] at hex
    by_cases hsy : env.symlinkOk (joinName mdir "default-model.gguf") = true
    · simp only [hex, Bool.false_eq_true, if_false, andThen, hsy, if_true]
      exact fun f hf _ => hf
    · simp only [hex, Bool.false_eq_true, if_false, andThen, hsy]
      exact fun f hf _ => hf

theorem cds_success_link (env : Env) (s : St) (mdir loc : PPath) :
    (create_default_symlink env s mdir loc).2 = none →
    (joinName mdir "default-model.gguf", relpath loc mdir)
      ∈ (create_default_symlink env s mdir loc).1.fs.links := by
  unfold create_default_symlink
  dsimp only
  by_cases hex : s.fs.lexists (joinName mdir "default-model.gguf") = true
  · by_cases hun : env.unlinkOk (joinName mdir "default-model.gguf") = true
    · by_cases hsy : env.symlinkOk (joinName mdir "default-model.gguf") = true
      · simp only [hex, if_true, hun, andThen, hsy]
        intro _
        exact List.mem_append_right _ (by simp)
      · simp only [hex, if_true, hun, andThen, hsy, Bool.false_eq_true, if_false]
        intro h
        simp at h
    · simp only [Bool.not_eq_true] at hun
      simp only [hex, if_true, hun, Bool.false_eq_true, if_false, andThen]
      intro h
      simp at h
  · simp only [Bool.not_eq_true] at hex
    by_cases hsy : env.symlinkOk (joinName mdir "default-model.gguf") = true
    · simp only [hex, Bool.false_eq_true, if_false, andThen, hsy, if_true]
      intro _
      exact List.mem_append_right _ (by simp)
    · simp only [hex, Bool.false_eq_true, if_false, andThen, hsy]
      intro h
      simp at h

theorem cds_trace (env : Env) (s : St) (mdir loc : PPath) :
    ∃ t, (create_default_symlink env s mdir loc).1.trace = s.trace ++ t := by
  unfold create_default_symlink
  dsimp only
  by_cases hex : s.fs.lexists (joinName mdir "default-model.gguf") = true
  · by_cases hun : env.unlinkOk (joinName mdir "default-model.gguf") = true
    · by_cases hsy : env.symlinkOk (joinName mdir "default-model.gguf") = true
      · simp only [hex, if_true, hun, andThen, hsy]
        exact ⟨[.evUnlink (joinName mdir "default-model.gguf"),
          .evSymlink (relpath loc mdir) (joinName mdir "default-model.gguf")], by simp⟩
      · simp only [hex, if_true, hun, andThen, hsy, Bool.false_eq_true, if_false]
        exact ⟨[.evUnlink (joinName mdir "default-model.gguf")], by simp⟩
    · simp only [Bool.not_eq_true] at hun
      simp only [hex, if_true, hun, Bool.false_eq_true, if_false, andThen]
      exact ⟨[], by simp⟩
  · simp only [Bool.not_eq_true] at hex
    by_cases hsy : env.symlinkOk (joinName mdir "default-model.gguf") = true
    · simp only [hex, Bool.false_eq_true, if_false, andThen, hsy, if_true]
      exact ⟨[.evSymlink (relpath loc mdir) (joinName mdir "default-model.gguf")], by simp⟩
    · simp only [hex, Bool.false_eq_true, if_false, andThen, hsy]
      exact ⟨[], by simp⟩

theorem abortOutcome_ne_success (e : Exc) : abortOutcome e ≠ .success := by
  unfold abortOutcome
  split <;> simp

theorem linkPhase_trace (env : Env) (cfg : Config) (s1 : St) (dm : List ModelItem) :
    ∃ t, (linkPhase env cfg s1 dm).1.trace = s1.trace ++ t := by
  unfold linkPhase
  by_cases hdm : dm.isEmpty = true
  · simp only [hdm, if_true]
    exact ⟨[], by simp⟩
  · simp only [hdm, Bool.false_eq_true, if_false]
    cases cfg.models with
    | nil => exact ⟨[], by simp⟩
    | cons m0 rest => exact cds_trace env s1 _ _

theorem confirmPhase_trace (cfg : Config) (s2 : St) (dm : List ModelItem) :
    ∃ t, (confirmPhase cfg s2 dm).1.trace = s2.trace ++ t := by
  unfold confirmPhase
  obtain ⟨_, _, _, _, ⟨t1, ht1⟩⟩ := confirmModels_spec dm s2
  rcases hcm : confirmModels s2 dm with ⟨s', e⟩
  rw [hcm] at ht1
  dsimp only at ht1
  cases e with
  | some e => exact ⟨t1, by simp [andThen, ht1]⟩
  | none =>
    simp only [andThen]
    by_cases hdm : dm.isEmpty = true
    · simp only [hdm, if_true]
      exact ⟨t1, ht1⟩
    · simp only [hdm, Bool.false_eq_true, if_false]
      cases hp : provider_confirmation_file cfg with
      | none => exact ⟨t1, ht1⟩
      | some pcf =>
        obtain ⟨_, _, _, _, ⟨t2, ht2⟩⟩ := ccf_spec s' pcf
        exact ⟨t1 ++ t2, by rw [ht2, ht1, List.append_assoc]⟩

theorem confirmPhase_success_spec (cfg : Config) (s2 : St) (dm : List ModelItem) (s3 : St)
    (h : confirmPhase cfg s2 dm = (s3, none)) :
    (∀ m ∈ dm, s3.fs.hasFile m.confirmation_file = true)
    ∧ (s3.fs.links = s2.fs.links)
    ∧ (∀ f ∈ s2.fs.files, f ∈ s3.fs.files)
    ∧ (∀ f ∈ s3.fs.files, f ∈ s2.fs.files ∨ (∃ m ∈ dm, f.1 = m.confirmation_file)
        ∨ (∃ pcf, provider_confirmation_file cfg = some pcf ∧ f.1 = pcf)) := by
  unfold confirmPhase at h
  obtain ⟨cm1, cm2, cm3, cm4, _⟩ := confirmModels_spec dm s2
  rcases hcm : confirmModels s2 dm with ⟨s', e⟩
  rw [hcm] at h cm1 cm2 cm3 cm4
  dsimp only at cm1 cm2 cm3 cm4
  cases e with
  | some e => simp [andThen] at h
  | none =>
    simp only [andThen] at h
    have hcm3 := cm3 rfl
    by_cases hdm : dm.isEmpty = true
    · simp only [hdm, if_true] at h
      injection h with h1 h2
      subst h1
      exact ⟨hcm3, cm1, cm2, fun f hf => by
        rcases cm4 f hf with hf | hf
        · exact Or.inl hf
        · exact Or.inr (Or.inl hf)⟩
    · simp only [hdm, Bool.false_eq_true, if_false] at h
      cases hp : provider_confirmation_file cfg with
      | none =>
        rw [hp] at h
        dsimp only at h
        injection h with h1 h2
        subst h1
        exact ⟨hcm3, cm1, cm2, fun f hf => by
          rcases cm4 f hf with hf | hf
          · exact Or.inl hf
          · exact Or.inr (Or.inl hf)⟩
      | some pcf =>
        rw [hp] at h
        dsimp only at h
        obtain ⟨c1, c2, c3, c4, _⟩ := ccf_spec s' pcf
        rcases hccf : create_confirmation_file s' pcf with ⟨s'', e2⟩
        rw [hccf] at h c1 c2 c3 c4
        dsimp only at c1 c2 c3 c4
        cases e2 with
        | some e2 => simp at h
        | none =>
          injection h with h1 h2
          subst h1
          refine ⟨?_, c1.trans cm1, fun f hf => c2 f (cm2 f hf), ?_⟩
          · intro m hm
            exact hasFile_mono c2 _ (hcm3 m hm)
          · intro f hf
            rcases c3 f hf with hf | hf
            · rcases cm4 f hf with hf | hf
              · exact Or.inl hf
              · exact Or.inr (Or.inl hf)
            · exact Or.inr (Or.inr ⟨pcf, rfl, hf⟩)

theorem downloadRun_success_elim (env : Env) (cfg : Config) (fs0 : FS) (selected : List Item)
    (hsucc : (downloadRun env cfg fs0 selected).outcome = .success) :
    ∃ s1 dm s2 s3,
      processSelected env cfg selected ⟨fs0, []⟩ [] = (s1, dm, none)
      ∧ linkPhase env cfg s1 dm = (s2, none)
      ∧ confirmPhase cfg s2 dm = (s3, none)
      ∧ (downloadRun env cfg fs0 selected).st = s3
      ∧ (downloadRun env cfg fs0 selected).downloaded = dm
      ∧ (downloadRun env cfg fs0 selected).fsAtLink
          = (if dm.isEmpty then none else some s1.fs) := by
  unfold downloadRun at hsucc ⊢
  dsimp only at hsucc ⊢
  rcases hps : processSelected env cfg selected ⟨fs0, []⟩ [] with ⟨s1, dm, e1⟩
  rw [hps] at hsucc
  cases e1 with
  | some e =>
    exact absurd hsucc (abortOutcome_ne_success e)
  | none =>
    dsimp only at hsucc
    rcases hlp : linkPhase env cfg s1 dm with ⟨s2, e2⟩
    rw [hlp] at hsucc
    cases e2 with
    | some e =>
      exact absurd hsucc (abortOutcome_ne_success e)
    | none =>
      dsimp only at hsucc
      rcases hcp : confirmPhase cfg s2 dm with ⟨s3, e3⟩
      rw [hcp] at hsucc
      cases e3 with
      | some e =>
        exact absurd hsucc (abortOutcome_ne_success e)
      | none =>
        refine ⟨s1, dm, s2, s3, rfl, hlp, hcp, ?_, ?_, ?_⟩ <;>
          simp only [hlp, hcp]

theorem downloadRun_linkfail (env : Env) (cfg : Config) (fs0 : FS) (selected : List Item)
    (s1 : St) (dm : List ModelItem) (s2 : St) (e : Exc)
    (hps : processSelected env cfg selected ⟨fs0, []⟩ [] = (s1, dm, none))
    (hlp : linkPhase env cfg s1 dm = (s2, some e)) :
    downloadRun env cfg fs0 selected
      = ⟨s2, if dm.isEmpty then none else some s1.fs, dm, abortOutcome e⟩ := by
  unfold downloadRun
  dsimp only
  rw [hps]
  dsimp only
  rw [hlp]

theorem offer_model_elim (cfg : Config) (fs0 : FS) (it : Item)
    (hit : it ∈ offerItems cfg fs0) (hty : it.type = "model") :
    ∃ m' ∈ cfg.models, fs0.hasFile m'.confirmation_file = false ∧ m'.model_name = it.name := by
  unfold offerItems at hit
  rcases List.mem_append.mp hit with h | h
  · obtain ⟨m', hm', heq⟩ := List.mem_map.mp h
    obtain ⟨hmem, hfresh⟩ := List.mem_filter.mp hm'
    refine ⟨m', hmem, by simpa using hfresh, ?_⟩
    rw [← heq]
  · obtain ⟨o, _, heq⟩ := List.mem_map.mp h
    rw [← heq] at hty
    simp at hty

theorem find_model_of_nodup (cfg : Config)
    (hnodup : (cfg.models.map (fun m => m.model_name)).Nodup)
    {nm : String} {m : ModelItem}
    (hf : cfg.models.find? (fun m' => m'.model_name == nm) = some m)
    (m' : ModelItem) (hm' : m' ∈ cfg.models) (hname : m'.model_name = nm) : m = m' := by
  have hmem : m ∈ cfg.models := List.mem_of_find?_eq_some hf
  have hpred := List.find?_some hf
  have hmn : m.model_name = nm := by simpa using hpred
  exact List.inj_on_of_nodup_map hnodup hmem hm' (by rw [hmn, hname])

theorem downloaded_fresh (env : Env) (cfg : Config) (fs0 : FS) (selected : List Item)
    (hsel : ∀ it ∈ selected, it ∈ offerItems cfg fs0)
    (hnodup : (cfg.models.map (fun m => m.model_name)).Nodup) :
    ∀ m ∈ (processSelected env cfg selected ⟨fs0, []⟩ []).2.1,
      m ∈ cfg.models ∧ fs0.hasFile m.confirmation_file = false := by
  intro m hm
  rcases (processSelected_spec env cfg selected ⟨fs0, []⟩ []).2.2.2.1 m hm with
    hm' | ⟨it, hit, hty, hfind⟩
  · exact absurd hm' (List.not_mem_nil m)
  · obtain ⟨m', hm', hhf, hname⟩ := offer_model_elim cfg fs0 it (hsel it hit) hty
    have heq : m = m' := find_model_of_nodup cfg hnodup hfind m' hm' hname
    subst heq
    exact ⟨hm', hhf⟩

theorem downloaded_conf_absent (env : Env) (cfg : Config) (fs0 : FS) (selected : List Item)
    (hsel : ∀ it ∈ selected, it ∈ offerItems cfg fs0)
    (hnodup : (cfg.models.map (fun m => m.model_name)).Nodup)
    (hdisj : ∀ m ∈ cfg.models, ∀ o ∈ cfg.oci, m.confirmation_file ≠ o.confirmation_file) :
    ∀ m ∈ (processSelected env cfg selected ⟨fs0, []⟩ []).2.1,
      (processSelected env cfg selected ⟨fs0, []⟩ []).1.fs.hasFile m.confirmation_file
        = false := by
  intro m hm
  obtain ⟨hmem, hfresh⟩ := downloaded_fresh env cfg fs0 selected hsel hnodup m hm
  cases hval : (processSelected env cfg selected
      ⟨fs0, []⟩ []).1.fs.hasFile m.confirmation_file with
  | false => rfl
  | true =>
    obtain ⟨c, hc⟩ := (hasFile_iff _ _).mp hval
    rcases (processSelected_spec env cfg selected ⟨fs0, []⟩ []).2.2.1 _ hc with hin | ⟨o, ho, hp⟩
    · have : fs0.hasFile m.confirmation_file = true :=
        (hasFile_iff _ _).mpr ⟨c, hin⟩
      rw [this] at hfresh
      exact absurd hfresh (by simp)
    · exact absurd hp (hdisj m hmem o ho)

theorem find_oci_of_nodup (cfg : Config)
    (hnodupI : (cfg.oci.map (fun o => o.image)).Nodup)
    (o : OciItem) (ho : o ∈ cfg.oci) :
    cfg.oci.find? (fun o' => o'.image == o.image) = some o := by
  cases hf : cfg.oci.find? (fun o' => o'.image == o.image) with
  | none =>
    have := List.find?_eq_none.mp hf o ho
    simp at this
  | some o2 =>
    have h2 := List.find?_some hf
    have hmem2 := List.mem_of_find?_eq_some hf
    have heq : o2 = o := List.inj_on_of_nodup_map hnodupI hmem2 ho (by simpa using h2)
    rw [heq]

theorem offerItems_eq_nil_iff (cfg : Config) (fs : FS) :
    offerItems cfg fs = [] ↔
      (cfg.oci = [] ∧ ∀ m ∈ cfg.models, fs.hasFile m.confirmation_file = true) := by
  unfold offerItems
  rw [List.append_eq_nil, List.map_eq_nil_iff, List.map_eq_nil_iff, List.filter_eq_nil_iff]
  constructor
  · rintro ⟨h1, h2⟩
    refine ⟨h2, fun m hm => ?_⟩
    have := h1 m hm
    simpa using this
  · rintro ⟨h1, h2⟩
    exact ⟨fun m hm => by simp [h2 m hm], h1⟩

theorem offerItems_oci_mem (cfg : Config) (fs : FS) (o : OciItem) (ho : o ∈ cfg.oci) :
    (⟨o.image, "oci"⟩ : Item) ∈ offerItems cfg fs := by
  unfold offerItems
  exact List.mem_append_right _ (List.mem_map.mpr ⟨o, ho, rfl⟩)

theorem linkPhase_success_spec (env : Env) (cfg : Config) (s1 : St) (dm : List ModelItem)
    (s2 : St) (m0 : ModelItem) (mrest : List ModelItem)
    (h : linkPhase env cfg s1 dm = (s2, none)) (hdm : dm ≠ [])
    (hm0 : cfg.models = m0 :: mrest) :
    create_default_symlink env s1 (dirname (defaultModel cfg m0).confirmation_file)
      (defaultModel cfg m0).location = (s2, none) := by
  unfold linkPhase at h
  have hdme : dm.isEmpty = false := by
    simpa [List.isEmpty_iff] using hdm
  rw [hdme] at h
  simp only [Bool.false_eq_true, if_false] at h
  rw [hm0] at h
  exact h

theorem linkPhase_eq_of_cds (env : Env) (cfg : Config) (s1 : St) (dm : List ModelItem)
    (m0 : ModelItem) (mrest : List ModelItem) (hdm : dm ≠ [])
    (hm0 : cfg.models = m0 :: mrest) :
    linkPhase env cfg s1 dm
      = create_default_symlink env s1 (dirname (defaultModel cfg m0).confirmation_file)
          (defaultModel cfg m0).location := by
  unfold linkPhase
  have hdme : dm.isEmpty = false := by
    simpa [List.isEmpty_iff] using hdm
  rw [hdme]
  simp only [Bool.false_eq_true, if_false]
  rw [hm0]

theorem defaultModel_spec (cfg : Config) (m0 : ModelItem) (mrest : List ModelItem)
    (hval : validate_config cfg = true) (hm0 : cfg.models = m0 :: mrest) :
    (∀ d, cfg.default_gguf = some d → (defaultModel cfg m0).model_name = d)
    ∧ (cfg.default_gguf = none → defaultModel cfg m0 = m0) := by
  constructor
  · intro d hd
    unfold defaultModel
    rw [hd]
    dsimp only
    unfold validate_config at hval
    rw [hd] at hval
    simp only [Bool.and_eq_true] at hval
    obtain ⟨-, hval3⟩ := hval
    have hne : cfg.models.isEmpty = false := by simp [hm0]
    rw [hne] at hval3
    simp only [Bool.false_or] at hval3
    have hmem : d ∈ cfg.models.map (fun m => m.model_name) := by
      simpa using hval3
    obtain ⟨m', hm', hname⟩ := List.mem_map.mp hmem
    cases hf : cfg.models.find? (fun m => m.model_name == d) with
    | none =>
      have := List.find?_eq_none.mp hf m' hm'
      rw [hname] at this
      simp at this
    | some mf =>
      have hmf := List.find?_some hf
      simp only [Option.getD_some]
      simpa using hmf
  · intro hd
    unfold defaultModel
    rw [hd]

/-- C1.  In every successful run (with a selection drawn from the offer
list, distinct model names and image names, and model confirmation paths
distinct from image confirmation paths): no confirmation file of a model
newly fetched in that run exists in the filesystem snapshot taken at the
moment the default-symlink step executes; after the run completes
successfully every newly fetched model's confirmation file exists; and
each selected image's confirmation file is created immediately upon that
image's successful fetch — its touch event directly follows the image's
pull command in the trace (separated only by the ensure-parent-directory
step of the confirmation helper). -/
theorem model_confirmations_deferred (env : Env) (cfg : Config) (fs0 : FS)
    (selected : List Item)
    (hsel : ∀ it ∈ selected, it ∈ offerItems cfg fs0)
    (hnodup : (cfg.models.map (fun m => m.model_name)).Nodup)
    (hnodupI : (cfg.oci.map (fun o => o.image)).Nodup)
    (hdisj : ∀ m ∈ cfg.models, ∀ o ∈ cfg.oci, m.confirmation_file ≠ o.confirmation_file)
    (hsucc : (downloadRun env cfg fs0 selected).outcome = .success) :
    (∀ m ∈ (downloadRun env cfg fs0 selected).downloaded, ∀ fsL,
      (downloadRun env cfg fs0 selected).fsAtLink = some fsL →
      fsL.hasFile m.confirmation_file = false)
    ∧ (∀ m ∈ (downloadRun env cfg fs0 selected).downloaded,
        (downloadRun env cfg fs0 selected).st.fs.hasFile m.confirmation_file = true)
    ∧ (∀ o ∈ cfg.oci, (⟨o.image, "oci"⟩ : Item) ∈ selected →
        ∃ pre post, (downloadRun env cfg fs0 selected).st.trace
          = pre ++ [.evRunCmd (ociCmd o.image o.containerfile o.build_args),
                    .evMakedirs (dirname o.confirmation_file),
                    .evTouch o.confirmation_file] ++ post) := by
  obtain ⟨s1, dm, s2, s3, hps, hlp, hcp, hst, hdl, hsnap⟩ :=
    downloadRun_success_elim env cfg fs0 selected hsucc
  refine ⟨?_, ?_, ?_⟩
  · intro m hm fsL hfsL
    rw [hdl] at hm
    rw [hsnap] at hfsL
    by_cases hdme : dm.isEmpty = true
    · rw [hdme] at hfsL
      simp at hfsL
    · simp only [Bool.not_eq_true] at hdme
      rw [hdme] at hfsL
      simp only [Bool.false_eq_true, if_false, Option.some.injEq] at hfsL
      subst hfsL
      have habsent := downloaded_conf_absent env cfg fs0 selected hsel hnodup hdisj
      rw [hps] at habsent
      exact habsent m hm
  · intro m hm
    rw [hdl] at hm
    rw [hst]
    exact (confirmPhase_success_spec cfg s2 dm s3 hcp).1 m hm
  · intro o ho hmem
    have hfind := find_oci_of_nodup cfg hnodupI o ho
    have hseg := processSelected_oci_segment env cfg selected ⟨fs0, []⟩ []
      (by rw [hps]) ⟨o.image, "oci"⟩ hmem rfl o hfind
    rw [hps] at hseg
    dsimp only at hseg
    obtain ⟨pre, post, hpre⟩ := hseg
    obtain ⟨t1, ht1⟩ := linkPhase_trace env cfg s1 dm
    rw [hlp] at ht1
    dsimp only at ht1
    obtain ⟨t2, ht2⟩ := confirmPhase_trace cfg s2 dm
    rw [hcp] at ht2
    dsimp only at ht2
    rw [hst]
    refine ⟨pre, post ++ t1 ++ t2, ?_⟩
    rw [ht2, ht1, hpre]
    simp [List.append_assoc]

theorem abortOutcome_runtimeError (m : String) :
    abortOutcome (.runtimeError m) = .caughtError m := rfl

theorem hasFile_false_of_subset {fs fs' : FS}
    (hsub : ∀ f ∈ fs'.files, f ∈ fs.files) (q : PPath) (h : fs.hasFile q = false) :
    fs'.hasFile q = false := by
  cases hv : fs'.hasFile q with
  | false => rfl
  | true =>
    obtain ⟨c, hc⟩ := (hasFile_iff _ _).mp hv
    have ht : fs.hasFile q = true := (hasFile_iff _ _).mpr ⟨c, hsub _ hc⟩
    rw [ht] at h
    simp at h

/-- C2.  When the item-processing loop has succeeded with a nonempty
newly-fetched-model list and the default-symlink step fails: on a
removal failure the run ends in exactly the state the loop left (the
previously existing link is preserved and creation is not attempted),
the error is the caught "Failed to remove existing symlink" message, and
the exit code is nonzero; on a creation failure the outcome is the
caught "Failed to create symlink" message with nonzero exit; in both
cases no confirmation file of any newly fetched model exists in the
final state. -/
theorem symlink_failure_containment (env : Env) (cfg : Config) (fs0 : FS)
    (selected : List Item) (s1 : St) (dm : List ModelItem)
    (m0 : ModelItem) (mrest : List ModelItem)
    (hsel : ∀ it ∈ selected, it ∈ offerItems cfg fs0)
    (hnodup : (cfg.models.map (fun m => m.model_name)).Nodup)
    (hdisj : ∀ m ∈ cfg.models, ∀ o ∈ cfg.oci, m.confirmation_file ≠ o.confirmation_file)
    (hps : processSelected env cfg selected ⟨fs0, []⟩ [] = (s1, dm, none))
    (hdm : dm ≠ []) (hm0 : cfg.models = m0 :: mrest) :
    (s1.fs.lexists (joinName (dirname (defaultModel cfg m0).confirmation_file)
        "default-model.gguf") = true →
     env.unlinkOk (joinName (dirname (defaultModel cfg m0).confirmation_file)
        "default-model.gguf") = false →
     downloadRun env cfg fs0 selected
       = ⟨s1, some s1.fs, dm, .caughtError ("Failed to remove existing symlink "
           ++ pathStr (joinName (dirname (defaultModel cfg m0).confirmation_file)
               "default-model.gguf") ++ ": OSError")⟩
     ∧ exitCode (downloadRun env cfg fs0 selected).outcome = 1
     ∧ (∀ m ∈ dm,
         (downloadRun env cfg fs0 selected).st.fs.hasFile m.confirmation_file = false))
    ∧ (env.symlinkOk (joinName (dirname (defaultModel cfg m0).confirmation_file)
          "default-model.gguf") = false →
       (s1.fs.lexists (joinName (dirname (defaultModel cfg m0).confirmation_file)
          "default-model.gguf") = false
        ∨ env.unlinkOk (joinName (dirname (defaultModel cfg m0).confirmation_file)
            "default-model.gguf") = true) →
       (downloadRun env cfg fs0 selected).outcome
         = .caughtError ("Failed to create symlink "
             ++ pathStr (joinName (dirname (defaultModel cfg m0).confirmation_file)
                 "default-model.gguf") ++ " -> "
             ++ pathStr (relpath (defaultModel cfg m0).location
                 (dirname (defaultModel cfg m0).confirmation_file)) ++ ": OSError")
       ∧ exitCode (downloadRun env cfg fs0 selected).outcome = 1
       ∧ (∀ m ∈ dm,
           (downloadRun env cfg fs0 selected).st.fs.hasFile m.confirmation_file = false)) := by
  have hdme : dm.isEmpty = false := by simpa [List.isEmpty_iff] using hdm
  have habsent := downloaded_conf_absent env cfg fs0 selected hsel hnodup hdisj
  rw [hps] at habsent
  constructor
  · intro hex hun
    have hcds := cds_removal_fail env s1 (dirname (defaultModel cfg m0).confirmation_file)
      (defaultModel cfg m0).location hex hun
    have hlp : linkPhase env cfg s1 dm
        = (s1, some (.runtimeError ("Failed to remove existing symlink "
            ++ pathStr (joinName (dirname (defaultModel cfg m0).confirmation_file)
                "default-model.gguf") ++ ": OSError"))) := by
      rw [linkPhase_eq_of_cds env cfg s1 dm m0 mrest hdm hm0]
      exact hcds
    have hrun := downloadRun_linkfail env cfg fs0 selected s1 dm s1 _ hps hlp
    rw [hdme] at hrun
    simp only [Bool.false_eq_true, if_false, abortOutcome_runtimeError] at hrun
    refine ⟨hrun, by rw [hrun]; rfl, ?_⟩
    intro m hm
    rw [hrun]
    exact habsent m hm
  · intro hsy hor
    have hcds := cds_create_fail env s1 (dirname (defaultModel cfg m0).confirmation_file)
      (defaultModel cfg m0).location hsy hor
    have hsub := cds_files env s1 (dirname (defaultModel cfg m0).confirmation_file)
      (defaultModel cfg m0).location
    rcases hc : create_default_symlink env s1
        (dirname (defaultModel cfg m0).confirmation_file)
        (defaultModel cfg m0).location with ⟨s2', e2⟩
    rw [hc] at hcds hsub
    dsimp only at hcds hsub
    subst hcds
    have hlp : linkPhase env cfg s1 dm
        = (s2', some (.runtimeError ("Failed to create symlink "
            ++ pathStr (joinName (dirname (defaultModel cfg m0).confirmation_file)
                "default-model.gguf") ++ " -> "
            ++ pathStr (relpath (defaultModel cfg m0).location
                (dirname (defaultModel cfg m0).confirmation_file)) ++ ": OSError"))) := by
      rw [linkPhase_eq_of_cds env cfg s1 dm m0 mrest hdm hm0]
      exact hc
    have hrun := downloadRun_linkfail env cfg fs0 selected s1 dm s2' _ hps hlp
    rw [hdme] at hrun
    simp only [Bool.false_eq_true, if_false, abortOutcome_runtimeError] at hrun
    refine ⟨by rw [hrun], by rw [hrun]; rfl, ?_⟩
    intro m hm
    rw [hrun]
    exact hasFile_false_of_subset hsub m.confirmation_file (habsent m hm)

/-- C3.  In every successful run (under a validated configuration) that
newly fetches at least one model, the final filesystem contains a
symlink named exactly "default-model.gguf" in the directory of the
default model's confirmation file, whose stored target is the relative
path from that directory to the default model's destination; resolving
that relative target against the link's directory yields exactly the
default model's destination path (for a destination free of "." and
".." components); and the default model is the configured
`default_gguf` identity when one is set, otherwise the first model in
configuration order — independent of which models were fetched or in
what order they were selected. -/
theorem default_symlink_resolves (env : Env) (cfg : Config) (fs0 : FS) (selected : List Item)
    (m0 : ModelItem) (mrest : List ModelItem)
    (hval : validate_config cfg = true)
    (hm0 : cfg.models = m0 :: mrest)
    (hsucc : (downloadRun env cfg fs0 selected).outcome = .success)
    (hdm : (downloadRun env cfg fs0 selected).downloaded ≠ [])
    (hwf : ∀ x ∈ (defaultModel cfg m0).location.comps, x ≠ ".." ∧ x ≠ ".") :
    ((joinName (dirname (defaultModel cfg m0).confirmation_file) "default-model.gguf",
       relpath (defaultModel cfg m0).location
         (dirname (defaultModel cfg m0).confirmation_file))
      ∈ (downloadRun env cfg fs0 selected).st.fs.links)
    ∧ (resolveComps (dirname (defaultModel cfg m0).confirmation_file).comps
        (relpath (defaultModel cfg m0).location
          (dirname (defaultModel cfg m0).confirmation_file)).comps
        = (defaultModel cfg m0).location.comps)
    ∧ ((relpath (defaultModel cfg m0).location
        (dirname (defaultModel cfg m0).confirmation_file)).abs = false)
    ∧ (∀ d, cfg.default_gguf = some d → (defaultModel cfg m0).model_name = d)
    ∧ (cfg.default_gguf = none → defaultModel cfg m0 = m0) := by
  obtain ⟨s1, dm, s2, s3, hps, hlp, hcp, hst, hdl, hsnap⟩ :=
    downloadRun_success_elim env cfg fs0 selected hsucc
  rw [hdl] at hdm
  have hcds := linkPhase_success_spec env cfg s1 dm s2 m0 mrest hlp hdm hm0
  have hlink := cds_success_link env s1 (dirname (defaultModel cfg m0).confirmation_file)
    (defaultModel cfg m0).location
  rw [hcds] at hlink
  have hmem := hlink rfl
  dsimp only at hmem
  have hlinks3 : s3.fs.links = s2.fs.links := (confirmPhase_success_spec cfg s2 dm s3 hcp).2.1
  obtain ⟨hdflt1, hdflt2⟩ := defaultModel_spec cfg m0 mrest hval hm0
  refine ⟨?_, relpath_resolves _ _ hwf, rfl, hdflt1, hdflt2⟩
  rw [hst, hlinks3]
  exact hmem

theorem getLast_joinName (p : PPath) (n : String) :
    (joinName p n).comps.getLast? = some n := by
  simp [joinName]

theorem linkPhase_files_keep (env : Env) (cfg : Config) (s1 : St) (dm : List ModelItem) :
    ∀ f ∈ s1.fs.files, f.1.comps.getLast? ≠ some "default-model.gguf" →
      f ∈ (linkPhase env cfg s1 dm).1.fs.files := by
  intro f hf hlast
  unfold linkPhase
  by_cases hdme : dm.isEmpty = true
  · simp only [hdme, if_true]
    exact hf
  · simp only [Bool.not_eq_true] at hdme
    simp only [hdme, Bool.false_eq_true, if_false]
    cases hm : cfg.models with
    | nil => exact hf
    | cons m0 rest =>
      refine cds_files_keep env s1 _ _ f hf ?_
      intro heq
      rw [heq, getLast_joinName] at hlast
      exact hlast rfl

/-- C5 amended.  After a fully successful run: every newly fetched
model's confirmation file exists, so none of those models is offered
again; a model is offered on a later run iff its confirmation file does
not exist; every configured image is re-offered unconditionally on every
run; hence the second run's offer list is empty iff no images are
configured and every configured model's confirmation file exists — in
particular it is empty when no images are configured and every
configured model was either already confirmed or fetched in the first
run.  (Model confirmation files are assumed not to be named
"default-model.gguf", the name the symlink step may remove.) -/
theorem idempotence_offers_amended (env : Env) (cfg : Config) (fs0 : FS)
    (selected : List Item)
    (hlast : ∀ m ∈ cfg.models,
      m.confirmation_file.comps.getLast? ≠ some "default-model.gguf")
    (hsucc : (downloadRun env cfg fs0 selected).outcome = .success) :
    (∀ m ∈ (downloadRun env cfg fs0 selected).downloaded,
      (downloadRun env cfg fs0 selected).st.fs.hasFile m.confirmation_file = true)
    ∧ (∀ o ∈ cfg.oci,
        (⟨o.image, "oci"⟩ : Item) ∈ offerItems cfg (downloadRun env cfg fs0 selected).st.fs)
    ∧ (offerItems cfg (downloadRun env cfg fs0 selected).st.fs = []
        ↔ (cfg.oci = [] ∧ ∀ m ∈ cfg.models,
            (downloadRun env cfg fs0 selected).st.fs.hasFile m.confirmation_file = true))
    ∧ ((∀ m ∈ cfg.models, fs0.hasFile m.confirmation_file = true
          ∨ m ∈ (downloadRun env cfg fs0 selected).downloaded) →
        cfg.oci = [] →
        offerItems cfg (downloadRun env cfg fs0 selected).st.fs = []) := by
  obtain ⟨s1, dm, s2, s3, hps, hlp, hcp, hst, hdl, hsnap⟩ :=
    downloadRun_success_elim env cfg fs0 selected hsucc
  obtain ⟨hcp1, hcp2, hcp3, hcp4⟩ := confirmPhase_success_spec cfg s2 dm s3 hcp
  have hconf : ∀ m ∈ (downloadRun env cfg fs0 selected).downloaded,
      (downloadRun env cfg fs0 selected).st.fs.hasFile m.confirmation_file = true := by
    intro m hm
    rw [hdl] at hm
    rw [hst]
    exact hcp1 m hm
  refine ⟨hconf, ?_, ?_, ?_⟩
  · intro o ho
    exact offerItems_oci_mem cfg _ o ho
  · exact offerItems_eq_nil_iff cfg _
  · intro hall hoci
    rw [offerItems_eq_nil_iff]
    refine ⟨hoci, fun m hm => ?_⟩
    rcases hall m hm with hconf0 | hdl'
    · obtain ⟨c, hc0⟩ := (hasFile_iff _ _).mp hconf0
      have hmono1 := (processSelected_spec env cfg selected ⟨fs0, []⟩ []).2.1
      rw [hps] at hmono1
      have hc1 : (m.confirmation_file, c) ∈ s1.fs.files := hmono1 _ hc0
      have hc2 : (m.confirmation_file, c) ∈ (linkPhase env cfg s1 dm).1.fs.files :=
        linkPhase_files_keep env cfg s1 dm _ hc1 (hlast m hm)
      rw [hlp] at hc2
      have hc3 : (m.confirmation_file, c) ∈ s3.fs.files := hcp3 _ hc2
      rw [hst]
      exact (hasFile_iff _ _).mpr ⟨c, hc3⟩
    · exact hconf m hdl'

/-- Witness for C1 on the concrete two-model/one-image run. -/
theorem model_confirmations_deferred_witness :
    (downloadRun envAll cfgTwo {} selTwo).st.fs.hasFile ⟨true, ["tmp", ".m1_ready"]⟩ = true :=
  (model_confirmations_deferred envAll cfgTwo {} selTwo (by decide) (by decide) (by decide)
    (by decide) (by decide)).2.1 mItem1 (by decide)

/-- Witness for C2: a run whose symlink-removal step fails exits 1 and
writes no model confirmation file. -/
theorem symlink_failure_containment_witness :
    exitCode (downloadRun envUnlinkFail cfgTwo fsLink [⟨"m1.gguf", "model"⟩]).outcome = 1
    ∧ (downloadRun envUnlinkFail cfgTwo fsLink
        [⟨"m1.gguf", "model"⟩]).st.fs.hasFile ⟨true, ["tmp", ".m1_ready"]⟩ = false :=
  have h := (symlink_failure_containment envUnlinkFail cfgTwo fsLink [⟨"m1.gguf", "model"⟩]
      (processSelected envUnlinkFail cfgTwo [⟨"m1.gguf", "model"⟩] ⟨fsLink, []⟩ []).1
      (processSelected envUnlinkFail cfgTwo [⟨"m1.gguf", "model"⟩] ⟨fsLink, []⟩ []).2.1
      mItem1 [mItem2]
      (by decide) (by decide) (by decide) (by decide) (by decide) rfl).1
      (by decide) (by decide)
  ⟨h.2.1, h.2.2 mItem1 (by decide)⟩

/-- Witness for C3: the concrete run links /tmp/default-model.gguf to
the relative target models/m2.gguf of the configured default model. -/
theorem default_symlink_resolves_witness :
    ((⟨true, ["tmp", "default-model.gguf"]⟩ : PPath),
      (⟨false, ["models", "m2.gguf"]⟩ : PPath))
      ∈ (downloadRun envAll cfgTwo {} selTwo).st.fs.links :=
  (default_symlink_resolves envAll cfgTwo {} selTwo mItem1 [mItem2]
    (by decide) rfl (by decide) (by decide) (by decide)).1

/-- Witness for C5: with no images configured and both models fetched,
the second run's offer list is empty. -/
theorem idempotence_offers_amended_witness :
    offerItems cfgModelsOnly (downloadRun envAll cfgModelsOnly {} selModelsOnly).st.fs = [] :=
  (idempotence_offers_amended envAll cfgModelsOnly {} selModelsOnly
    (by decide) (by decide)).2.2.2 (by decide) rfl

/-- C5 counterexample: with one image configured, a fully successful
first run still leaves a non-empty offer list on the second run (the
image is re-offered unconditionally), refuting "yields an empty offer
list on the second run". -/
theorem second_run_offer_nonempty :
    (downloadRun envAll cfgTwo {} selTwo).outcome = .success
    ∧ offerItems cfgTwo (downloadRun envAll cfgTwo {} selTwo).st.fs
        = [⟨"img:latest", "oci"⟩]
    ∧ offerItems cfgTwo (downloadRun envAll cfgTwo {} selTwo).st.fs ≠ [] := by
  refine ⟨by decide, by decide, by decide⟩
